import Mathlib

/-!
# MatplotlibVersionedWriter: a shallow embedding

Verification development for
`kedro/extras/datasets/matplotlib/matplotlib_versioned_writer.py`
(class `MatplotlibVersionedWriter`).

The writer is a thin adapter over two external collaborators: an
fsspec-style filesystem (existence check, open-for-write, cache
invalidation, path separator) and matplotlib's figure encoder
(`plot.savefig`).  Both collaborators are modelled explicitly; the
encoder is a parameter of the save function.  Helpers inherited from
`kedro.io.core` (`AbstractVersionedDataSet`, `get_protocol_and_path`,
`get_filepath_str`, version resolution and the versioned-path
convention) are not part of the translated sources; each such
definition carries a doc comment starting `Modelled from the spec:`.

Machine-level effects (filesystem writes, cache invalidations,
existence queries, version generation, handle open/close) are recorded
in an explicit event trace so that frame and ordering properties can be
stated about a whole save call.
-/

namespace MatplotlibVersionedWriter

/-- Python values as they appear in the argument dictionaries of the
writer (`fs_args`, `credentials`, `save_args`, `open_args_save`).
A nested mapping is represented by `vdict`. -/
inductive Val where
  | vstr : String → Val
  | vbool : Bool → Val
  | vint : Int → Val
  | vnone : Val
  | vdict : List (String × Val) → Val
deriving Repr

/-- A Python dictionary with string keys, represented as an association
list in insertion order.  Python dictionaries never hold a key twice;
where a proof needs that fact it takes `Dict.NodupKeys` as a
hypothesis. -/
abbrev Dict := List (String × Val)

/-- Python truthiness of an optional value: `d.get(k)` returns `None`
when the key is absent, and `None`, `False`, `0`, `""`, `{}` are all
falsy. -/
def Val.truthyOpt : Option Val → Bool
  | none => false
  | some (.vstr s) => !(s = "")
  | some (.vbool b) => b
  | some (.vint n) => !(n = 0)
  | some .vnone => false
  | some (.vdict d) => !d.isEmpty

namespace Dict

/-- `d.get(k)`: the value stored at `k`, if any (first occurrence). -/
def get (d : Dict) (k : String) : Option Val :=
  match d with
  | [] => none
  | (k', v) :: rest => if k' = k then some v else get rest k

/-- `d[k] = v`: replace the value at `k` in place if present, else
append, as CPython dictionaries do (insertion order preserved). -/
def set (d : Dict) (k : String) (v : Val) : Dict :=
  match d with
  | [] => [(k, v)]
  | (k', v') :: rest =>
      if k' = k then (k, v) :: rest else (k', v') :: set rest k v

/-- `d1.update(d2)`: set every binding of `d2` into `d1`, left to
right. -/
def update (d1 d2 : Dict) : Dict :=
  d2.foldl (fun acc kv => set acc kv.1 kv.2) d1

/-- `d.pop(k, default)`: the stored value (or the default) together
with the dictionary with `k` removed. -/
def pop (d : Dict) (k : String) (dflt : Val) : Val × Dict :=
  (match get d k with | some v => v | none => dflt,
   d.filter (fun kv => !(kv.1 = k)))

/-- `d.setdefault(k, v)`: insert `k ↦ v` only when `k` is absent. -/
def setdefault (d : Dict) (k : String) (v : Val) : Dict :=
  match get d k with
  | some _ => d
  | none => d ++ [(k, v)]

/-- The keys of the dictionary are pairwise distinct — an invariant of
every real Python dictionary. -/
def NodupKeys (d : Dict) : Prop := (d.map Prod.fst).Nodup

instance (d : Dict) : Decidable (NodupKeys d) := by
  unfold NodupKeys; infer_instance

end Dict

/-- `kedro.io.core.Version`: a pair of optional load/save version
identifiers (opaque timestamp-like strings). -/
structure Version where
  load : Option String
  save : Option String
deriving Repr, DecidableEq

/-- Split a character list at the first occurrence of `"://"`,
returning the parts before and after it. -/
def splitProtocol : List Char → Option (List Char × List Char)
  | [] => none
  | ':' :: '/' :: '/' :: rest => some ([], rest)
  | c :: rest =>
      match splitProtocol rest with
      | some (a, b) => some (c :: a, b)
      | none => none

/-- Modelled from the spec: the external core's
`get_protocol_and_path` splits `[<protocol>://]<path>` into the
protocol and the path without protocol; the protocol defaults to the
local filesystem (`"file"`) when omitted. -/
def getProtocolAndPath (filepath : String) : String × String :=
  match splitProtocol filepath.data with
  | some (proto, path) => (⟨proto⟩, ⟨path⟩)
  | none => ("file", filepath)

/-- Modelled from the spec: the external core's `get_filepath_str`
turns the resolved pure path back into the string handed to the
filesystem; the spec describes paths as passed through unchanged. -/
def getFilepathStr (path : String) (_protocol : String) : String := path

/-- Split a character list at its last `'/'`: the part before it and
the part after it. -/
def splitLastSep : List Char → Option (List Char × List Char)
  | [] => none
  | c :: cs =>
      match splitLastSep cs with
      | some (par, nm) => some (c :: par, nm)
      | none => if c = '/' then some ([], cs) else none

/-- The last component of a `/`-separated pure path (its filename). -/
def pathName (p : String) : String :=
  match splitLastSep p.data with
  | some (_, nm) => ⟨nm⟩
  | none => p

/-- Everything before the last component of a `/`-separated pure path. -/
def pathParent (p : String) : String :=
  match splitLastSep p.data with
  | some (par, _) => ⟨par⟩
  | none => ""

/-- Modelled from the spec: the external versioning base's
`_get_versioned_path` inserts the version identifier as a path segment
between the declared path's parent and its filename:
`<parent>/<version-id>/<filename>`. -/
def versionedPath (p v : String) : String :=
  let par := pathParent p
  (if par = "" then "" else par ++ "/") ++ v ++ "/" ++ pathName p

/-- `self._fs.pathsep.join([a, b])` with the modelled separator `/`. -/
def joinSep (a b : String) : String := a ++ "/" ++ b

/-- The state of the external fsspec filesystem.  `files` maps a path
to the bytes stored there.  `cached` is the set of paths with a cached
metadata entry; `invalidate_cache` drops entries.  `openHandles`
counts write handles currently open.  `failOpen` / `failWrite` inject
backend failures for the named paths, so that exception paths of the
writer can be exercised. -/
structure FS where
  files : List (String × List Nat)
  cached : List String
  openHandles : Nat
  failOpen : List String
  failWrite : List String
deriving Repr, DecidableEq

namespace FS

/-- Store bytes at a path, replacing any previous content in place. -/
def setFile (fsfiles : List (String × List Nat)) (p : String) (b : List Nat) :
    List (String × List Nat) :=
  match fsfiles with
  | [] => [(p, b)]
  | (p', b') :: rest =>
      if p' = p then (p, b) :: rest else (p', b') :: setFile rest p b

/-- `fs.exists(p)`: true when `p` holds a file, or when some file lives
under `p` as a directory prefix — the directory semantics shared by the
local filesystem and object-store backends (a key `base/version/name/0.png`
makes `base/version/name` exist). -/
def exists' (fs : FS) (p : String) : Bool :=
  fs.files.any (fun kv => kv.1 = p || (p ++ "/").data.isPrefixOf kv.1.data)

/-- `fs.invalidate_cache(p)`: drop the cached entry for `p`. -/
def invalidateCache (fs : FS) (p : String) : FS :=
  { fs with cached := fs.cached.filter (fun q => !(q = p)) }

end FS

/-- Error values raised by the writer or its collaborators.
`datasetError` is kedro's `DataSetError`; the other two stand for
backend exceptions escaping `fs.open` and `write`. -/
inductive Err where
  | datasetError : String → Err
  | openFailed : String → Err
  | writeFailed : String → Err
deriving Repr, DecidableEq

/-- An observable effect of one save/release call, in order. -/
inductive Ev where
  /-- `self._exists_function(path)` was invoked and returned the bool. -/
  | existsQ : String → Bool → Ev
  /-- A fresh save version was generated by the external clock. -/
  | genVer : String → Ev
  /-- A write handle was opened at the path. -/
  | openW : String → Ev
  /-- The bytes were written at the path. -/
  | writeB : String → List Nat → Ev
  /-- The write handle at the path was closed. -/
  | closeW : String → Ev
  /-- `fs.invalidate_cache(path)` was invoked. -/
  | invalCache : String → Ev
deriving Repr, DecidableEq

/-- The whole writer instance after construction: the configuration
bundle of §3 of the spec.  `versionCache` is the save version cached
by the external versioning base once it has been generated. -/
structure Writer where
  filepath : String
  protocol : String
  fsArgs : Dict
  fsOpenArgsSave : Dict
  saveArgs : Dict
  layer : Option String
  version : Option Version
  versionCache : Option String
deriving Repr

/-- The name the source interpolates into its error messages
(`self.__class__.__name__`). -/
def className : String := "MatplotlibVersionedWriter"

/-- The `DataSetError` message of `_load`. -/
def loadErrMsg : String := "Loading not supported for `" ++ className ++ "`"

/-- `_load`: always raises; modelled as an `Except` that is an error
for every writer. -/
def loadFn (_w : Writer) : Except Err (List Nat) :=
  .error (.datasetError loadErrMsg)

/-- The `DataSetError` message of `_get_save_path` when the versioned
path exists (the `str(self)` interpolation is modelled by the class
name). -/
def mustNotExistMsg (vp : String) : String :=
  "Save path `" ++ vp ++ "` for " ++ className ++
    " must not exist if versioning is enabled."

/-- `_exists`: asks the filesystem about the unversioned declared
path. -/
def existsFn (w : Writer) (fs : FS) : Bool :=
  fs.exists' (getFilepathStr w.filepath w.protocol)

/-- Result of resolving the save version: the identifier, the writer
(whose cache may now be filled), the clock counter, the trace. -/
structure RRes where
  ver : String
  w : Writer
  n : Nat
  evs : List Ev
deriving Repr

/-- Modelled from the spec: the external versioning base's
`resolve_save_version` reuses an explicit save identifier, otherwise
lazily generates one and caches it for the lifetime of the instance —
generation happens at most once and repeated calls return the
identical identifier.  `gens` is the external clock producing fresh
timestamp identifiers; `n` counts how many have been drawn. -/
def resolveSaveVersion (gens : Nat → String) (n : Nat) (w : Writer) : RRes :=
  match w.version.bind Version.save with
  | some s => ⟨s, w, n, []⟩
  | none =>
      match w.versionCache with
      | some g => ⟨g, w, n, []⟩
      | none =>
          ⟨gens n, { w with versionCache := some (gens n) }, n + 1,
            [Ev.genVer (gens n)]⟩

/-- Result of `_get_save_path`: the resolved path or a raised error,
plus the threaded writer, clock and trace. -/
structure PRes where
  res : Except Err String
  w : Writer
  n : Nat
  evs : List Ev
deriving Repr

/-- `_get_save_path`: the declared path unchanged when no version
descriptor was supplied; otherwise the versioned path, after the
existence guard that is disarmed by a truthy `multiFile` save
argument. -/
def getSavePath (gens : Nat → String) (n : Nat) (fs : FS) (w : Writer) : PRes :=
  match w.version with
  | none => ⟨.ok w.filepath, w, n, []⟩
  | some _ =>
      let r := resolveSaveVersion gens n w
      let vp := versionedPath r.w.filepath r.ver
      let ex := fs.exists' vp
      if ex && !(Val.truthyOpt (Dict.get r.w.saveArgs "multiFile")) then
        ⟨.error (.datasetError (mustNotExistMsg vp)), r.w, r.n,
          r.evs ++ [Ev.existsQ vp ex]⟩
      else
        ⟨.ok vp, r.w, r.n, r.evs ++ [Ev.existsQ vp ex]⟩

/-- Result of writing one element: new filesystem, trace, optional
exception. -/
structure WRes where
  fs : FS
  evs : List Ev
  err : Option Err
deriving Repr

/-- `_save_to_fs`: encode the plot into an in-memory buffer with the
merged encoder arguments, then open the path for writing and write the
bytes; the `with` block closes the handle on every exit path.  `enc`
is the external encoder (`plot.savefig`), which may itself raise. -/
def saveToFs {P : Type} (enc : P → Dict → Except Err (List Nat)) (w : Writer)
    (fs : FS) (fullKeyPath : String) (plot : P) : WRes :=
  match enc plot w.saveArgs with
  | .error e => ⟨fs, [], some e⟩
  | .ok bytes =>
      if fullKeyPath ∈ fs.failOpen then
        ⟨fs, [], some (.openFailed fullKeyPath)⟩
      else
        let fs1 := { fs with openHandles := fs.openHandles + 1 }
        if fullKeyPath ∈ fs1.failWrite then
          ⟨{ fs1 with openHandles := fs1.openHandles - 1 },
            [Ev.openW fullKeyPath, Ev.closeW fullKeyPath],
            some (.writeFailed fullKeyPath)⟩
        else
          ⟨{ fs1 with
              files := FS.setFile fs1.files fullKeyPath bytes,
              openHandles := fs1.openHandles - 1 },
            [Ev.openW fullKeyPath, Ev.writeB fullKeyPath bytes,
              Ev.closeW fullKeyPath], none⟩

/-- The three payload shapes accepted by `_save`, decided in the
source by `isinstance(data, list)` / `isinstance(data, dict)` / else. -/
inductive Payload (P : Type) where
  | single : P → Payload P
  | list : List P → Payload P
  | dict : List (String × P) → Payload P

/-- Result of a whole save call. -/
structure SRes where
  fs : FS
  w : Writer
  n : Nat
  evs : List Ev
  err : Option Err
deriving Repr

/-- The list branch of `_save`: for each element resolve the save
path, join the zero-based index plus `".png"`, write; the first raised
exception aborts the loop. -/
def saveList {P : Type} (enc : P → Dict → Except Err (List Nat))
    (gens : Nat → String) (w : Writer) (fs : FS) (n : Nat)
    (plots : List P) (idx : Nat) : SRes :=
  match plots with
  | [] => ⟨fs, w, n, [], none⟩
  | plot :: rest =>
      let pr := getSavePath gens n fs w
      match pr.res with
      | .error e => ⟨fs, pr.w, pr.n, pr.evs, some e⟩
      | .ok base =>
          let fullKeyPath :=
            joinSep (getFilepathStr base pr.w.protocol)
              (toString idx ++ ".png")
          let wr := saveToFs enc pr.w fs fullKeyPath plot
          match wr.err with
          | some e => ⟨wr.fs, pr.w, pr.n, pr.evs ++ wr.evs, some e⟩
          | none =>
              let r := saveList enc gens pr.w wr.fs pr.n rest (idx + 1)
              ⟨r.fs, r.w, r.n, pr.evs ++ wr.evs ++ r.evs, r.err⟩

/-- The dict branch of `_save`: for each name/plot pair resolve the
save path, join the name verbatim, write. -/
def saveDict {P : Type} (enc : P → Dict → Except Err (List Nat))
    (gens : Nat → String) (w : Writer) (fs : FS) (n : Nat)
    (plots : List (String × P)) : SRes :=
  match plots with
  | [] => ⟨fs, w, n, [], none⟩
  | (plotName, plot) :: rest =>
      let pr := getSavePath gens n fs w
      match pr.res with
      | .error e => ⟨fs, pr.w, pr.n, pr.evs, some e⟩
      | .ok base =>
          let fullKeyPath :=
            joinSep (getFilepathStr base pr.w.protocol) plotName
          let wr := saveToFs enc pr.w fs fullKeyPath plot
          match wr.err with
          | some e => ⟨wr.fs, pr.w, pr.n, pr.evs ++ wr.evs, some e⟩
          | none =>
              let r := saveDict enc gens pr.w wr.fs pr.n rest
              ⟨r.fs, r.w, r.n, pr.evs ++ wr.evs ++ r.evs, r.err⟩

/-- The single-figure branch of `_save`: write at the resolved path
itself. -/
def saveSingle {P : Type} (enc : P → Dict → Except Err (List Nat))
    (gens : Nat → String) (w : Writer) (fs : FS) (n : Nat) (plot : P) : SRes :=
  let pr := getSavePath gens n fs w
  match pr.res with
  | .error e => ⟨fs, pr.w, pr.n, pr.evs, some e⟩
  | .ok base =>
      let fullKeyPath := getFilepathStr base pr.w.protocol
      let wr := saveToFs enc pr.w fs fullKeyPath plot
      ⟨wr.fs, pr.w, pr.n, pr.evs ++ wr.evs, wr.err⟩

/-- The tail of `_save`: when no exception escaped the payload branch,
`_invalidate_cache` drops the filesystem cache entry for the
unversioned declared path (`self._filepath`); an exception propagates
before reaching it. -/
def savePost (r : SRes) : SRes :=
  match r.err with
  | some _ => r
  | none =>
      let fp := getFilepathStr r.w.filepath r.w.protocol
      ⟨r.fs.invalidateCache fp, r.w, r.n, r.evs ++ [Ev.invalCache fp], none⟩

/-- `_save`: branch on the payload shape, then — only when no
exception escaped — invalidate the filesystem cache entry for the
unversioned declared path. -/
def save {P : Type} (enc : P → Dict → Except Err (List Nat))
    (gens : Nat → String) (w : Writer) (fs : FS) (n : Nat)
    (data : Payload P) : SRes :=
  savePost
    (match data with
      | .list ps => saveList enc gens w fs n ps 0
      | .dict m => saveDict enc gens w fs n m
      | .single p => saveSingle enc gens w fs n p)

/-- `_release`: `super()._release()` — modelled from the spec: clears
any cached generated version so the next save re-resolves a fresh one —
followed by `_invalidate_cache` on the unversioned declared path. -/
def releaseFn (w : Writer) (fs : FS) : Writer × FS × List Ev :=
  let w1 := { w with versionCache := none }
  let fp := getFilepathStr w1.filepath w1.protocol
  (w1, fs.invalidateCache fp, [Ev.invalCache fp])

/-- A heap of Python dictionaries: the caller's argument dictionaries
are mutable objects, so `copy.deepcopy` and in-place `pop` are
modelled against an explicit store of cells addressed by `Nat`. -/
structure Store where
  cells : List (Nat × Dict)
  next : Nat

namespace Store

/-- Dereference an address (absent cells read as the empty dict). -/
def read (σ : Store) (a : Nat) : Dict :=
  match σ.cells.find? (fun c => c.1 = a) with
  | some c => c.2
  | none => []

/-- Allocate a fresh cell holding `d`; returns the new store and the
fresh address. -/
def alloc (σ : Store) (d : Dict) : Store × Nat :=
  ({ cells := σ.cells ++ [(σ.next, d)], next := σ.next + 1 }, σ.next)

/-- Overwrite the cell at `a` in place. -/
def write (σ : Store) (a : Nat) (d : Dict) : Store :=
  { σ with cells := σ.cells.map (fun c => if c.1 = a then (a, d) else c) }

end Store

/-- The dictionary value held at an optional address (`none` is
Python's `None` argument default, read as the empty dict after
`or {}`). -/
def valAt (σ : Store) : Option Nat → Dict
  | some a => σ.read a
  | none => []

/-- `__init__`, run against the heap: `credentials` and `fs_args`
arrive as optional addresses of caller-owned dictionaries (`none` for
the Python default `None`).  The constructor deep-copies both, pops
`open_args_save` out of the copy (an in-place mutation of the fresh
cell, not of the caller's), defaults its `mode` to `"wb"`, splits the
protocol off the filepath and merges the save arguments over the empty
defaults.  `fsCtorKwargs` records the keyword arguments handed to
`fsspec.filesystem` (`**_credentials, **_fs_args`).  A non-mapping
value under `open_args_save` is a type error in the source and is
modelled as the empty mapping. -/
def initStore (σ : Store) (filepath : String) (fsArgsA : Option Nat)
    (credsA : Option Nat) (saveArgs : Option Dict) (layer : Option String)
    (version : Option Version) : Store × Writer :=
  let credsVal : Dict := valAt σ credsA
  let (σ1, _credsCopy) := σ.alloc credsVal
  let fsVal : Dict := valAt σ fsArgsA
  let (σ2, fsCopy) := σ1.alloc fsVal
  let (oas, fsPopped) := Dict.pop (σ2.read fsCopy) "open_args_save" (Val.vdict [])
  let σ3 := σ2.write fsCopy fsPopped
  let oasD : Dict := match oas with | .vdict d => d | _ => []
  let oasFinal := Dict.setdefault oasD "mode" (Val.vstr "wb")
  let (protocol, path) := getProtocolAndPath filepath
  let sArgs : Dict := match saveArgs with
    | some d => Dict.update [] d
    | none => []
  (σ3,
   { filepath := path, protocol := protocol,
     fsArgs := σ3.read fsCopy, fsOpenArgsSave := oasFinal,
     saveArgs := sArgs, layer := layer, version := version,
     versionCache := none })

/-- The keyword arguments the constructor hands to
`fsspec.filesystem(self._protocol, **_credentials, **_fs_args)`. -/
def Writer.fsCtorKwargs (w : Writer) (creds : Dict) : Dict :=
  Dict.update creds w.fsArgs

/-- The constructor as a pure function of the argument values: run
`initStore` in a store holding exactly the caller's dictionaries. -/
def initWriter (filepath : String) (fsArgs credentials : Option Dict)
    (saveArgs : Option Dict) (layer : Option String)
    (version : Option Version) : Writer :=
  let σ0 : Store := ⟨[], 0⟩
  let (σ1, a) := σ0.alloc (fsArgs.getD [])
  let (σ2, b) := σ1.alloc (credentials.getD [])
  (initStore σ2 filepath (fsArgs.map fun _ => a)
    (credentials.map fun _ => b) saveArgs layer version).2

/-- The write events of a trace, in order. -/
def writesOf (evs : List Ev) : List (String × List Nat) :=
  evs.filterMap fun e =>
    match e with
    | .writeB p b => some (p, b)
    | _ => none

/-- The paths written by a trace, in order. -/
def writePathsOf (evs : List Ev) : List String :=
  (writesOf evs).map Prod.fst

/-- The cache invalidations of a trace, in order. -/
def invalsOf (evs : List Ev) : List String :=
  evs.filterMap fun e =>
    match e with
    | .invalCache p => some p
    | _ => none

/-- How many fresh save versions a trace generated. -/
def genCount (evs : List Ev) : Nat :=
  (evs.filter fun e =>
    match e with
    | .genVer _ => true
    | _ => false).length

/-- How many write handles a trace opened. -/
def openCount (evs : List Ev) : Nat :=
  (evs.filter fun e =>
    match e with
    | .openW _ => true
    | _ => false).length

/-- How many write handles a trace closed. -/
def closeCount (evs : List Ev) : Nat :=
  (evs.filter fun e =>
    match e with
    | .closeW _ => true
    | _ => false).length

/-- The shape-determined on-disk layout under a resolved base path:
a single plot at the base itself, the `i`-th of a sequence at
`<base>/<i>.png`, a mapping entry at `<base>/<name>` with the name
verbatim. -/
def expectedPaths {P : Type} (base : String) : Payload P → List String
  | .single _ => [base]
  | .list ps => (List.range ps.length).map fun i =>
      joinSep base (toString i ++ ".png")
  | .dict m => m.map fun kv => joinSep base kv.1

/-- The layout together with each element's direct encoding under a
pure encoder. -/
def expectedWrites {P : Type} (encF : P → Dict → List Nat) (args : Dict)
    (base : String) : Payload P → List (String × List Nat)
  | .single p => [(base, encF p args)]
  | .list ps => ps.enum.map fun ip =>
      (joinSep base (toString ip.1 ++ ".png"), encF ip.2 args)
  | .dict m => m.map fun kv => (joinSep base kv.1, encF kv.2 args)

/-- A payload containing at least one plot. -/
def payloadNonempty {P : Type} : Payload P → Prop
  | .single _ => True
  | .list ps => ps ≠ []
  | .dict m => m ≠ []

/-- The existence guard of `_get_save_path` can never fire: either
versioning is off, or the `multiFile` save argument is truthy. -/
def NoGuard (w : Writer) : Prop :=
  w.version = none ∨ Val.truthyOpt (Dict.get w.saveArgs "multiFile") = true

/-- The writer's save version is settled: every further resolution
returns the same identifier, consumes no clock ticks and leaves the
writer untouched. -/
def Resolved (w : Writer) (s : String) : Prop :=
  ∀ gens n, resolveSaveVersion gens n w = ⟨s, w, n, []⟩

/-- `b` is the base path all elements of a save through `w` target:
the declared path in plain mode, the settled versioned path
otherwise. -/
def BaseIs (w : Writer) (b : String) : Prop :=
  (w.version = none ∧ b = w.filepath) ∨
    ((∃ v, w.version = some v) ∧
      ∃ s, Resolved w s ∧ b = versionedPath w.filepath s)

/-- Replay a list of writes onto a file map, in order. -/
def applyWrites (files : List (String × List Nat))
    (ws : List (String × List Nat)) : List (String × List Nat) :=
  ws.foldl (fun f pb => FS.setFile f pb.1 pb.2) files

/-- The on-disk paths of a sequence save starting at index `idx`. -/
def listPathsFrom (b : String) (idx count : Nat) : List String :=
  (List.range' idx count).map fun i => joinSep b (toString i ++ ".png")

/-- The on-disk paths of a mapping save: one per key, verbatim. -/
def dictPaths {P : Type} (b : String) (m : List (String × P)) : List String :=
  m.map fun kv => joinSep b kv.1

/-- Every allocated cell of the store lies below the allocation
counter. -/
def Store.WF (σ : Store) : Prop := ∀ c ∈ σ.cells, c.1 < σ.next


/-- A total encoder, as `Except`-valued (matplotlib's `savefig` when
it does not raise). -/
def pureEnc {P : Type} (encF : P → Dict → List Nat) :
    P → Dict → Except Err (List Nat) :=
  fun p d => .ok (encF p d)

/-- What one payload-branch run from a writer with a settled base
guarantees: writer and clock untouched, handles restored and balanced,
files changed exactly by the traced writes and nothing else changed,
no version generated, no cache invalidation, and the traced write
paths a prefix of `paths` — all of `paths` on success. -/
def RunOK (w : Writer) (fs : FS) (n : Nat) (paths : List String)
    (r : SRes) : Prop :=
  r.w = w ∧ r.n = n ∧
  r.fs.openHandles = fs.openHandles ∧ r.fs.cached = fs.cached ∧
  r.fs.failOpen = fs.failOpen ∧ r.fs.failWrite = fs.failWrite ∧
  r.fs.files = applyWrites fs.files (writesOf r.evs) ∧
  openCount r.evs = closeCount r.evs ∧
  genCount r.evs = 0 ∧
  invalsOf r.evs = [] ∧
  (∃ k, writePathsOf r.evs = paths.take k) ∧
  (r.err = none → writePathsOf r.evs = paths)

/-- As `RunOK`, but from an arbitrary writer: the first path
resolution may settle the version cache and draw one clock tick. -/
def CoreOK (w : Writer) (fs : FS) (n : Nat) (paths : List String)
    (r : SRes) : Prop :=
  r.w.filepath = w.filepath ∧ r.w.version = w.version ∧
  r.w.protocol = w.protocol ∧ r.w.saveArgs = w.saveArgs ∧
  n ≤ r.n ∧ r.n ≤ n + 1 ∧
  r.fs.openHandles = fs.openHandles ∧ r.fs.cached = fs.cached ∧
  r.fs.failOpen = fs.failOpen ∧ r.fs.failWrite = fs.failWrite ∧
  r.fs.files = applyWrites fs.files (writesOf r.evs) ∧
  openCount r.evs = closeCount r.evs ∧
  genCount r.evs ≤ 1 ∧
  invalsOf r.evs = [] ∧
  (∃ k, writePathsOf r.evs = paths.take k) ∧
  (r.err = none → writePathsOf r.evs = paths)

/-! ## Trace algebra -/

@[simp]
lemma writesOf_nil : writesOf [] = [] := rfl

@[simp]
lemma writesOf_append (a b : List Ev) :
    writesOf (a ++ b) = writesOf a ++ writesOf b := by
  simp [writesOf]

@[simp]
lemma invalsOf_nil : invalsOf [] = [] := rfl

@[simp]
lemma invalsOf_append (a b : List Ev) :
    invalsOf (a ++ b) = invalsOf a ++ invalsOf b := by
  simp [invalsOf]

@[simp]
lemma genCount_nil : genCount [] = 0 := rfl

@[simp]
lemma genCount_append (a b : List Ev) :
    genCount (a ++ b) = genCount a + genCount b := by
  simp [genCount]

@[simp]
lemma openCount_nil : openCount [] = 0 := rfl

@[simp]
lemma openCount_append (a b : List Ev) :
    openCount (a ++ b) = openCount a + openCount b := by
  simp [openCount]

@[simp]
lemma closeCount_nil : closeCount [] = 0 := rfl

@[simp]
lemma closeCount_append (a b : List Ev) :
    closeCount (a ++ b) = closeCount a + closeCount b := by
  simp [closeCount]

@[simp]
lemma writePathsOf_nil : writePathsOf [] = [] := rfl

@[simp]
lemma writePathsOf_append (a b : List Ev) :
    writePathsOf (a ++ b) = writePathsOf a ++ writePathsOf b := by
  simp [writePathsOf]

@[simp]
lemma applyWrites_nil (f : List (String × List Nat)) :
    applyWrites f [] = f := rfl

@[simp]
lemma applyWrites_cons (f : List (String × List Nat)) (pb ws) :
    applyWrites f (pb :: ws) = applyWrites (FS.setFile f pb.1 pb.2) ws := rfl

lemma applyWrites_append (f : List (String × List Nat)) (a b) :
    applyWrites f (a ++ b) = applyWrites (applyWrites f a) b := by
  simp [applyWrites, List.foldl_append]

/-! ## Version resolution -/

lemma rsv_w_cases (gens : Nat → String) (n : Nat) (w : Writer) :
    (resolveSaveVersion gens n w).w = w ∨
      (resolveSaveVersion gens n w).w = { w with versionCache := some (gens n) } := by
  unfold resolveSaveVersion
  cases hb : w.version.bind Version.save with
  | some s => simp
  | none =>
      cases hc : w.versionCache with
      | some g => simp
      | none => simp

lemma rsv_filepath (gens : Nat → String) (n : Nat) (w : Writer) :
    (resolveSaveVersion gens n w).w.filepath = w.filepath := by
  rcases rsv_w_cases gens n w with h | h <;> rw [h]

lemma rsv_version (gens : Nat → String) (n : Nat) (w : Writer) :
    (resolveSaveVersion gens n w).w.version = w.version := by
  rcases rsv_w_cases gens n w with h | h <;> rw [h]

lemma rsv_saveArgs (gens : Nat → String) (n : Nat) (w : Writer) :
    (resolveSaveVersion gens n w).w.saveArgs = w.saveArgs := by
  rcases rsv_w_cases gens n w with h | h <;> rw [h]

lemma rsv_protocol (gens : Nat → String) (n : Nat) (w : Writer) :
    (resolveSaveVersion gens n w).w.protocol = w.protocol := by
  rcases rsv_w_cases gens n w with h | h <;> rw [h]

lemma rsv_evs_cases (gens : Nat → String) (n : Nat) (w : Writer) :
    (resolveSaveVersion gens n w).evs = [] ∨
      (resolveSaveVersion gens n w).evs = [Ev.genVer (gens n)] := by
  unfold resolveSaveVersion
  cases hb : w.version.bind Version.save with
  | some s => simp
  | none =>
      cases hc : w.versionCache with
      | some g => simp
      | none => simp

lemma rsv_n_cases (gens : Nat → String) (n : Nat) (w : Writer) :
    (resolveSaveVersion gens n w).n = n ∨
      (resolveSaveVersion gens n w).n = n + 1 := by
  unfold resolveSaveVersion
  cases hb : w.version.bind Version.save with
  | some s => simp
  | none =>
      cases hc : w.versionCache with
      | some g => simp
      | none => simp

/-- After one resolution the writer's save version is settled: later
resolutions return the identical identifier and change nothing. -/
lemma rsv_resolved (gens : Nat → String) (n : Nat) (w : Writer) :
    Resolved (resolveSaveVersion gens n w).w (resolveSaveVersion gens n w).ver := by
  intro gens' n'
  unfold resolveSaveVersion
  cases hb : w.version.bind Version.save with
  | some s => simp [hb]
  | none =>
      cases hc : w.versionCache with
      | some g => simp [hb, hc]
      | none => simp [hb, hc]

/-! ## Path resolution -/

/-- Plain mode: without a version descriptor, `_get_save_path` is the
declared path, unchanged, with no observable effect. -/
lemma gsp_none (gens : Nat → String) (n : Nat) (fs : FS) (w : Writer)
    (h : w.version = none) :
    getSavePath gens n fs w = ⟨.ok w.filepath, w, n, []⟩ := by
  unfold getSavePath; rw [h]

lemma gsp_w_fields (gens : Nat → String) (n : Nat) (fs : FS) (w : Writer) :
    (getSavePath gens n fs w).w.filepath = w.filepath ∧
    (getSavePath gens n fs w).w.version = w.version ∧
    (getSavePath gens n fs w).w.saveArgs = w.saveArgs ∧
    (getSavePath gens n fs w).w.protocol = w.protocol := by
  unfold getSavePath
  cases hv : w.version with
  | none => simp [hv]
  | some v =>
      simp only []
      split <;>
        simp [rsv_filepath, rsv_version, rsv_saveArgs, rsv_protocol, hv]

lemma gsp_evs_counts (gens : Nat → String) (n : Nat) (fs : FS) (w : Writer) :
    writesOf (getSavePath gens n fs w).evs = [] ∧
    invalsOf (getSavePath gens n fs w).evs = [] ∧
    openCount (getSavePath gens n fs w).evs = 0 ∧
    closeCount (getSavePath gens n fs w).evs = 0 ∧
    genCount (getSavePath gens n fs w).evs ≤ 1 := by
  unfold getSavePath
  cases hv : w.version with
  | none => simp
  | some v =>
      rcases rsv_evs_cases gens n w with h | h <;>
        · simp only []
          split <;>
            simp [h, writesOf, invalsOf, openCount, closeCount, genCount]

lemma gsp_n_bounds (gens : Nat → String) (n : Nat) (fs : FS) (w : Writer) :
    n ≤ (getSavePath gens n fs w).n ∧ (getSavePath gens n fs w).n ≤ n + 1 := by
  unfold getSavePath
  cases hv : w.version with
  | none => simp
  | some v =>
      rcases rsv_n_cases gens n w with h | h <;>
        · simp only []
          split <;> simp [h]

/-- `_get_save_path` on a writer with a settled base: the full
characterization.  In plain mode it returns the declared path; in
versioned mode it queries existence of the settled versioned path and
raises exactly when the path exists and `multiFile` is not truthy. -/
lemma gsp_of_base {w : Writer} {b : String} (hb : BaseIs w b)
    (gens : Nat → String) (n : Nat) (fs : FS) :
    getSavePath gens n fs w =
      if w.version = none then ⟨.ok b, w, n, []⟩
      else
        if fs.exists' b && !(Val.truthyOpt (Dict.get w.saveArgs "multiFile")) then
          ⟨.error (.datasetError (mustNotExistMsg b)), w, n,
            [Ev.existsQ b (fs.exists' b)]⟩
        else ⟨.ok b, w, n, [Ev.existsQ b (fs.exists' b)]⟩ := by
  rcases hb with ⟨hv, hb⟩ | ⟨⟨v, hv⟩, s, hres, hb⟩
  · subst hb; simp [gsp_none gens n fs w hv, hv]
  · subst hb
    unfold getSavePath
    rw [hv]
    simp only [hres gens n, hv]
    simp

/-- Any `_get_save_path` call settles some base `b`, and its result is
either that base or the must-not-exist error about it. -/
lemma gsp_spec (gens : Nat → String) (n : Nat) (fs : FS) (w : Writer) :
    ∃ b, BaseIs (getSavePath gens n fs w).w b ∧
      ((getSavePath gens n fs w).res = .ok b ∨
        (getSavePath gens n fs w).res =
          .error (.datasetError (mustNotExistMsg b))) := by
  unfold getSavePath
  cases hv : w.version with
  | none =>
      refine ⟨w.filepath, Or.inl ⟨hv, rfl⟩, Or.inl rfl⟩
  | some v =>
      refine ⟨versionedPath (resolveSaveVersion gens n w).w.filepath
        (resolveSaveVersion gens n w).ver, ?_, ?_⟩
      · simp only []
        split <;>
          exact Or.inr ⟨⟨v, by rw [rsv_version, hv]⟩,
            (resolveSaveVersion gens n w).ver, rsv_resolved gens n w, rfl⟩
      · simp only []
        split <;> simp

/-! ## Writing one element -/

/-- Full characterization of `_save_to_fs`'s effect: the handle count
is restored on every exit path, opens balance closes, only `files`
changes and exactly by the traced writes, a write happens only at the
requested path, every successful call traces exactly the encoder's
bytes at the path, and a failed call traces no write. -/
lemma saveToFs_spec {P : Type} (enc : P → Dict → Except Err (List Nat))
    (w : Writer) (fs : FS) (path : String) (plot : P) :
    (saveToFs enc w fs path plot).fs.openHandles = fs.openHandles ∧
    (saveToFs enc w fs path plot).fs.cached = fs.cached ∧
    (saveToFs enc w fs path plot).fs.failOpen = fs.failOpen ∧
    (saveToFs enc w fs path plot).fs.failWrite = fs.failWrite ∧
    (saveToFs enc w fs path plot).fs.files =
      applyWrites fs.files (writesOf (saveToFs enc w fs path plot).evs) ∧
    openCount (saveToFs enc w fs path plot).evs =
      closeCount (saveToFs enc w fs path plot).evs ∧
    genCount (saveToFs enc w fs path plot).evs = 0 ∧
    invalsOf (saveToFs enc w fs path plot).evs = [] ∧
    (writePathsOf (saveToFs enc w fs path plot).evs = [] ∨
      writePathsOf (saveToFs enc w fs path plot).evs = [path]) ∧
    ((saveToFs enc w fs path plot).err = none →
      ∃ bts, enc plot w.saveArgs = Except.ok bts ∧
        writesOf (saveToFs enc w fs path plot).evs = [(path, bts)]) ∧
    (∀ e, (saveToFs enc w fs path plot).err = some e →
      writesOf (saveToFs enc w fs path plot).evs = []) := by
  unfold saveToFs
  cases he : enc plot w.saveArgs with
  | error e =>
      simp [writesOf, writePathsOf, invalsOf, openCount, closeCount, genCount]
  | ok bytes =>
      by_cases ho : path ∈ fs.failOpen
      · simp [ho, writesOf, writePathsOf, invalsOf, openCount, closeCount,
          genCount]
      · by_cases hw : path ∈ fs.failWrite
        · simp [ho, hw, writesOf, writePathsOf, invalsOf, openCount,
            closeCount, genCount]
        · simp [ho, hw, writesOf, writePathsOf, invalsOf, openCount,
            closeCount, genCount, applyWrites]

/-! ## The payload branches from a settled base -/

@[simp]
lemma listPathsFrom_zero (b : String) (idx : Nat) :
    listPathsFrom b idx 0 = [] := rfl

lemma listPathsFrom_succ (b : String) (idx m : Nat) :
    listPathsFrom b idx (m + 1) =
      joinSep b (toString idx ++ ".png") :: listPathsFrom b (idx + 1) m := by
  simp [listPathsFrom, List.range'_succ]

/-- The cons step of the list branch when the path resolution
succeeded with base `b`. -/
lemma saveList_cons_ok {P : Type} (enc : P → Dict → Except Err (List Nat))
    (gens : Nat → String) {w : Writer} {b : String} (p : P) (rest : List P)
    (idx : Nat) (fs : FS) (n : Nat) (evs0 : List Ev)
    (hpr : getSavePath gens n fs w = ⟨.ok b, w, n, evs0⟩)
    (h1 : writesOf evs0 = []) (h2 : invalsOf evs0 = [])
    (h3 : openCount evs0 = 0) (h4 : closeCount evs0 = 0)
    (h5 : genCount evs0 = 0)
    (ih : ∀ idx fs n, RunOK w fs n (listPathsFrom b idx rest.length)
      (saveList enc gens w fs n rest idx)) :
    RunOK w fs n (listPathsFrom b idx (rest.length + 1))
      (saveList enc gens w fs n (p :: rest) idx) := by
  unfold saveList
  rw [hpr]
  simp only [getFilepathStr]
  obtain ⟨s1, s2, s3, s4, s5, s6, s7, s8, s9, s10, s11⟩ :=
    saveToFs_spec enc w fs (joinSep b (toString idx ++ ".png")) p
  cases hwe : (saveToFs enc w fs (joinSep b (toString idx ++ ".png")) p).err with
  | some e =>
      simp only [hwe]
      have hw0 := s11 e hwe
      refine ⟨rfl, rfl, s1, s2, s3, s4, ?_, ?_, ?_, ?_, ⟨0, ?_⟩, ?_⟩
      · simp [h1, hw0, s5]
      · simp [h3, h4, s6]
      · simp [h5, s7]
      · simp [h2, s8]
      · simp [writePathsOf, h1, hw0]
      · intro h; exact absurd h (by simp)
  | none =>
      simp only [hwe]
      obtain ⟨bts, hbts, hws⟩ := s10 hwe
      obtain ⟨i1, i2, i3, i4, i5, i6, i7, i8, i9, i10, ⟨k, i11⟩, i12⟩ :=
        ih (idx + 1) (saveToFs enc w fs (joinSep b (toString idx ++ ".png")) p).fs n
      have hp0 : writePathsOf evs0 = [] := by simp [writePathsOf, h1]
      have hp1 : writePathsOf
          (saveToFs enc w fs (joinSep b (toString idx ++ ".png")) p).evs =
          [joinSep b (toString idx ++ ".png")] := by
        simp [writePathsOf, hws]
      refine ⟨i1, i2, by rw [i3, s1], by rw [i4, s2], by rw [i5, s3],
        by rw [i6, s4], ?_, ?_, ?_, ?_, ⟨k + 1, ?_⟩, ?_⟩
      · rw [i7, s5]
        simp [h1, applyWrites_append]
      · simp [h3, h4, s6, i8]
      · simp [h5, s7, i9]
      · simp [h2, s8, i10]
      · rw [writePathsOf_append, writePathsOf_append, hp0, hp1, i11,
          listPathsFrom_succ]
        simp
      · intro herr
        have hfull := i12 herr
        rw [writePathsOf_append, writePathsOf_append, hp0, hp1, hfull,
          listPathsFrom_succ]
        simp

/-- The cons step of the dict branch when the path resolution
succeeded with base `b`. -/
lemma saveDict_cons_ok {P : Type} (enc : P → Dict → Except Err (List Nat))
    (gens : Nat → String) {w : Writer} {b : String} (plotName : String)
    (p : P) (rest : List (String × P)) (fs : FS) (n : Nat) (evs0 : List Ev)
    (hpr : getSavePath gens n fs w = ⟨.ok b, w, n, evs0⟩)
    (h1 : writesOf evs0 = []) (h2 : invalsOf evs0 = [])
    (h3 : openCount evs0 = 0) (h4 : closeCount evs0 = 0)
    (h5 : genCount evs0 = 0)
    (ih : ∀ fs n, RunOK w fs n (dictPaths b rest)
      (saveDict enc gens w fs n rest)) :
    RunOK w fs n (dictPaths b ((plotName, p) :: rest))
      (saveDict enc gens w fs n ((plotName, p) :: rest)) := by
  unfold saveDict
  rw [hpr]
  simp only [getFilepathStr]
  obtain ⟨s1, s2, s3, s4, s5, s6, s7, s8, s9, s10, s11⟩ :=
    saveToFs_spec enc w fs (joinSep b plotName) p
  cases hwe : (saveToFs enc w fs (joinSep b plotName) p).err with
  | some e =>
      simp only [hwe]
      have hw0 := s11 e hwe
      refine ⟨rfl, rfl, s1, s2, s3, s4, ?_, ?_, ?_, ?_, ⟨0, ?_⟩, ?_⟩
      · simp [h1, hw0, s5]
      · simp [h3, h4, s6]
      · simp [h5, s7]
      · simp [h2, s8]
      · simp [writePathsOf, h1, hw0]
      · intro h; exact absurd h (by simp)
  | none =>
      simp only [hwe]
      obtain ⟨bts, hbts, hws⟩ := s10 hwe
      obtain ⟨i1, i2, i3, i4, i5, i6, i7, i8, i9, i10, ⟨k, i11⟩, i12⟩ :=
        ih (saveToFs enc w fs (joinSep b plotName) p).fs n
      have hp0 : writePathsOf evs0 = [] := by simp [writePathsOf, h1]
      have hp1 : writePathsOf
          (saveToFs enc w fs (joinSep b plotName) p).evs =
          [joinSep b plotName] := by
        simp [writePathsOf, hws]
      refine ⟨i1, i2, by rw [i3, s1], by rw [i4, s2], by rw [i5, s3],
        by rw [i6, s4], ?_, ?_, ?_, ?_, ⟨k + 1, ?_⟩, ?_⟩
      · rw [i7, s5]
        simp [h1, applyWrites_append]
      · simp [h3, h4, s6, i8]
      · simp [h5, s7, i9]
      · simp [h2, s8, i10]
      · rw [writePathsOf_append, writePathsOf_append, hp0, hp1, i11]
        simp [dictPaths]
      · intro herr
        have hfull := i12 herr
        rw [writePathsOf_append, writePathsOf_append, hp0, hp1, hfull]
        simp [dictPaths]

lemma saveDict_run {P : Type} (enc : P → Dict → Except Err (List Nat))
    (gens : Nat → String) {w : Writer} {b : String} (hb : BaseIs w b) :
    ∀ (m : List (String × P)) (fs : FS) (n : Nat),
      RunOK w fs n (dictPaths b m) (saveDict enc gens w fs n m) := by
  intro m
  induction m with
  | nil =>
      intro fs n
      refine ⟨rfl, rfl, rfl, rfl, rfl, rfl, rfl, rfl, rfl, rfl, ⟨0, rfl⟩, ?_⟩
      intro; simp [saveDict, writePathsOf, dictPaths]
  | cons kv rest ih =>
      intro fs n
      obtain ⟨plotName, p⟩ := kv
      have hg := gsp_of_base hb gens n fs
      by_cases hv : w.version = none
      · rw [if_pos hv] at hg
        exact saveDict_cons_ok enc gens plotName p rest fs n [] hg rfl rfl rfl
          rfl rfl ih
      · rw [if_neg hv] at hg
        by_cases hex :
            (fs.exists' b &&
              !(Val.truthyOpt (Dict.get w.saveArgs "multiFile"))) = true
        · rw [if_pos hex] at hg
          show RunOK w fs n _ (saveDict enc gens w fs n ((plotName, p) :: rest))
          unfold saveDict
          rw [hg]
          refine ⟨rfl, rfl, rfl, rfl, rfl, rfl, ?_, ?_, ?_, ?_, ⟨0, ?_⟩, ?_⟩
          · simp [writesOf]
          · simp [openCount, closeCount]
          · simp [genCount]
          · simp [invalsOf]
          · simp [writePathsOf, writesOf]
          · intro h; exact absurd h (by simp)
        · rw [if_neg hex] at hg
          exact saveDict_cons_ok enc gens plotName p rest fs n
            [Ev.existsQ b (fs.exists' b)] hg (by simp [writesOf])
            (by simp [invalsOf]) (by simp [openCount]) (by simp [closeCount])
            (by simp [genCount]) ih

/-- The single-figure branch from a settled base. -/
lemma saveSingle_run {P : Type} (enc : P → Dict → Except Err (List Nat))
    (gens : Nat → String) {w : Writer} {b : String} (hb : BaseIs w b)
    (p : P) (fs : FS) (n : Nat) :
    RunOK w fs n [b] (saveSingle enc gens w fs n p) := by
  have hg := gsp_of_base hb gens n fs
  obtain ⟨s1, s2, s3, s4, s5, s6, s7, s8, s9, s10, s11⟩ :=
    saveToFs_spec enc w fs b p
  have main : ∀ evs0 : List Ev, writesOf evs0 = [] → invalsOf evs0 = [] →
      openCount evs0 = 0 → closeCount evs0 = 0 → genCount evs0 = 0 →
      getSavePath gens n fs w = ⟨.ok b, w, n, evs0⟩ →
      RunOK w fs n [b] (saveSingle enc gens w fs n p) := by
    intro evs0 h1 h2 h3 h4 h5 hpr
    unfold saveSingle
    rw [hpr]
    simp only [getFilepathStr]
    have hp0 : writePathsOf evs0 = [] := by simp [writePathsOf, h1]
    refine ⟨rfl, rfl, s1, s2, s3, s4, ?_, ?_, ?_, ?_, ?_, ?_⟩
    · rw [s5]; simp [h1, applyWrites_append]
    · simp [h3, h4, s6]
    · simp [h5, s7]
    · simp [h2, s8]
    · rcases s9 with h | h
      · exact ⟨0, by rw [writePathsOf_append, hp0, h]; simp⟩
      · exact ⟨1, by rw [writePathsOf_append, hp0, h]; simp⟩
    · intro herr
      have herr' : (saveToFs enc w fs b p).err = none := herr
      obtain ⟨bts, _, hws⟩ := s10 herr'
      rw [writePathsOf_append, hp0]
      simp [writePathsOf, hws]
  by_cases hv : w.version = none
  · rw [if_pos hv] at hg
    exact main [] rfl rfl rfl rfl rfl hg
  · rw [if_neg hv] at hg
    by_cases hex :
        (fs.exists' b &&
          !(Val.truthyOpt (Dict.get w.saveArgs "multiFile"))) = true
    · rw [if_pos hex] at hg
      unfold saveSingle
      rw [hg]
      refine ⟨rfl, rfl, rfl, rfl, rfl, rfl, ?_, ?_, ?_, ?_, ⟨0, ?_⟩, ?_⟩
      · simp [writesOf]
      · simp [openCount, closeCount]
      · simp [genCount]
      · simp [invalsOf]
      · simp [writePathsOf, writesOf]
      · intro h; exact absurd h (by simp)
    · rw [if_neg hex] at hg
      exact main [Ev.existsQ b (fs.exists' b)] (by simp [writesOf])
        (by simp [invalsOf]) (by simp [openCount]) (by simp [closeCount])
        (by simp [genCount]) hg

lemma saveList_run {P : Type} (enc : P → Dict → Except Err (List Nat))
    (gens : Nat → String) {w : Writer} {b : String} (hb : BaseIs w b) :
    ∀ (ps : List P) (idx : Nat) (fs : FS) (n : Nat),
      RunOK w fs n (listPathsFrom b idx ps.length)
        (saveList enc gens w fs n ps idx) := by
  intro ps
  induction ps with
  | nil =>
      intro idx fs n
      refine ⟨rfl, rfl, rfl, rfl, rfl, rfl, rfl, rfl, rfl, rfl, ⟨0, rfl⟩, ?_⟩
      intro; simp [saveList, writePathsOf]
  | cons p rest ih =>
      intro idx fs n
      have hg := gsp_of_base hb gens n fs
      by_cases hv : w.version = none
      · rw [if_pos hv] at hg
        exact saveList_cons_ok enc gens p rest idx fs n [] hg rfl rfl rfl rfl
          rfl ih
      · rw [if_neg hv] at hg
        by_cases hex :
            (fs.exists' b &&
              !(Val.truthyOpt (Dict.get w.saveArgs "multiFile"))) = true
        · rw [if_pos hex] at hg
          show RunOK w fs n _ (saveList enc gens w fs n (p :: rest) idx)
          unfold saveList
          rw [hg]
          refine ⟨rfl, rfl, rfl, rfl, rfl, rfl, ?_, ?_, ?_, ?_, ⟨0, ?_⟩, ?_⟩
          · simp [writesOf]
          · simp [openCount, closeCount]
          · simp [genCount]
          · simp [invalsOf]
          · simp [writePathsOf, writesOf]
          · intro h; exact absurd h (by simp)
        · rw [if_neg hex] at hg
          exact saveList_cons_ok enc gens p rest idx fs n
            [Ev.existsQ b (fs.exists' b)] hg (by simp [writesOf])
            (by simp [invalsOf]) (by simp [openCount]) (by simp [closeCount])
            (by simp [genCount]) ih

/-! ## The payload branches from an arbitrary writer -/

lemma saveList_entry {P : Type} (enc : P → Dict → Except Err (List Nat))
    (gens : Nat → String) (w : Writer) (fs : FS) (n : Nat)
    (ps : List P) (idx : Nat) :
    ∃ b, (w.version = none → b = w.filepath) ∧
      CoreOK w fs n (listPathsFrom b idx ps.length)
        (saveList enc gens w fs n ps idx) ∧
      (ps ≠ [] → (saveList enc gens w fs n ps idx).err = none →
        (getSavePath gens n fs w).res = .ok b) := by
  cases ps with
  | nil =>
      refine ⟨w.filepath, fun _ => rfl,
        ⟨rfl, rfl, rfl, rfl, le_refl n, Nat.le_succ n, rfl, rfl, rfl, rfl,
          rfl, rfl, by simp [saveList, genCount], rfl, ⟨0, rfl⟩, ?_⟩,
        fun h => absurd rfl h⟩
      intro; simp [saveList, writePathsOf, listPathsFrom]
  | cons p rest =>
      obtain ⟨b, hbase, hres⟩ := gsp_spec gens n fs w
      obtain ⟨f1, f2, f3, f4⟩ := gsp_w_fields gens n fs w
      obtain ⟨e1, e2, e3, e4, e5⟩ := gsp_evs_counts gens n fs w
      obtain ⟨n1, n2⟩ := gsp_n_bounds gens n fs w
      have hbfp : w.version = none → b = w.filepath := by
        intro hv
        rcases hbase with ⟨_, hb⟩ | ⟨⟨v, hv'⟩, _⟩
        · rw [hb, f1]
        · rw [f2, hv] at hv'; cases hv'
      rcases hres with hok | herr
      · -- the first resolution succeeded with base b
        refine ⟨b, hbfp, ?_, fun _ _ => hok⟩
        show CoreOK w fs n _ (saveList enc gens w fs n (p :: rest) idx)
        unfold saveList
        simp only [hok, getFilepathStr]
        obtain ⟨s1, s2, s3, s4, s5, s6, s7, s8, s9, s10, s11⟩ :=
          saveToFs_spec enc (getSavePath gens n fs w).w fs
            (joinSep b (toString idx ++ ".png")) p
        cases hwe : (saveToFs enc (getSavePath gens n fs w).w fs
            (joinSep b (toString idx ++ ".png")) p).err with
        | some e =>
            simp only [hwe]
            have hw0 := s11 e hwe
            refine ⟨f1, f2, f4, f3, n1, n2, s1, s2, s3, s4, ?_, ?_, ?_, ?_,
              ⟨0, ?_⟩, ?_⟩
            · simp [e1, hw0, s5]
            · simp [e3, e4, s6]
            · simpa [s7] using e5
            · simp [e2, s8]
            · simp [writePathsOf, e1, hw0]
            · intro h; exact absurd h (by simp)
        | none =>
            simp only [hwe]
            obtain ⟨bts, hbts, hws⟩ := s10 hwe
            have hb' : BaseIs (getSavePath gens n fs w).w b := hbase
            obtain ⟨i1, i2, i3, i4, i5, i6, i7, i8, i9, i10, ⟨k, i11⟩, i12⟩ :=
              saveList_run enc gens hb' rest (idx + 1)
                (saveToFs enc (getSavePath gens n fs w).w fs
                  (joinSep b (toString idx ++ ".png")) p).fs
                (getSavePath gens n fs w).n
            have hp0 : writePathsOf (getSavePath gens n fs w).evs = [] := by
              simp [writePathsOf, e1]
            have hp1 : writePathsOf
                (saveToFs enc (getSavePath gens n fs w).w fs
                  (joinSep b (toString idx ++ ".png")) p).evs =
                [joinSep b (toString idx ++ ".png")] := by
              simp [writePathsOf, hws]
            refine ⟨by rw [i1, f1], by rw [i1, f2], by rw [i1, f4],
              by rw [i1, f3], by rw [i2]; exact n1, by rw [i2]; exact n2,
              by rw [i3, s1], by rw [i4, s2], by rw [i5, s3], by rw [i6, s4],
              ?_, ?_, ?_, ?_, ⟨k + 1, ?_⟩, ?_⟩
            · rw [i7, s5]
              simp [e1, applyWrites_append]
            · simp [e3, e4, s6, i8]
            · simpa [s7, i9] using e5
            · simp [e2, s8, i10]
            · rw [writePathsOf_append, writePathsOf_append, hp0, hp1, i11]
              simp only [List.length_cons, listPathsFrom_succ]
              simp
            · intro herr2
              have hfull := i12 herr2
              rw [writePathsOf_append, writePathsOf_append, hp0, hp1, hfull]
              simp only [List.length_cons, listPathsFrom_succ]
              simp
      · -- the first resolution raised the must-not-exist error
        refine ⟨b, hbfp, ?_, ?_⟩
        · show CoreOK w fs n _ (saveList enc gens w fs n (p :: rest) idx)
          unfold saveList
          simp only [herr]
          refine ⟨f1, f2, f4, f3, n1, n2, rfl, rfl, rfl, rfl, ?_, ?_, ?_, ?_,
            ⟨0, ?_⟩, ?_⟩
          · simp [e1]
          · simp [e3, e4]
          · exact e5
          · exact e2
          · simp [writePathsOf, e1]
          · intro h; exact absurd h (by simp)
        · intro _ herr2
          exfalso
          revert herr2
          unfold saveList
          simp only [herr]
          simp

lemma saveDict_entry {P : Type} (enc : P → Dict → Except Err (List Nat))
    (gens : Nat → String) (w : Writer) (fs : FS) (n : Nat)
    (m : List (String × P)) :
    ∃ b, (w.version = none → b = w.filepath) ∧
      CoreOK w fs n (dictPaths b m) (saveDict enc gens w fs n m) ∧
      (m ≠ [] → (saveDict enc gens w fs n m).err = none →
        (getSavePath gens n fs w).res = .ok b) := by
  cases m with
  | nil =>
      refine ⟨w.filepath, fun _ => rfl,
        ⟨rfl, rfl, rfl, rfl, le_refl n, Nat.le_succ n, rfl, rfl, rfl, rfl,
          rfl, rfl, by simp [saveDict, genCount], rfl, ⟨0, rfl⟩, ?_⟩,
        fun h => absurd rfl h⟩
      intro; simp [saveDict, writePathsOf, dictPaths]
  | cons kv rest =>
      obtain ⟨plotName, p⟩ := kv
      obtain ⟨b, hbase, hres⟩ := gsp_spec gens n fs w
      obtain ⟨f1, f2, f3, f4⟩ := gsp_w_fields gens n fs w
      obtain ⟨e1, e2, e3, e4, e5⟩ := gsp_evs_counts gens n fs w
      obtain ⟨n1, n2⟩ := gsp_n_bounds gens n fs w
      have hbfp : w.version = none → b = w.filepath := by
        intro hv
        rcases hbase with ⟨_, hb⟩ | ⟨⟨v, hv'⟩, _⟩
        · rw [hb, f1]
        · rw [f2, hv] at hv'; cases hv'
      rcases hres with hok | herr
      · refine ⟨b, hbfp, ?_, fun _ _ => hok⟩
        show CoreOK w fs n _ (saveDict enc gens w fs n ((plotName, p) :: rest))
        unfold saveDict
        simp only [hok, getFilepathStr]
        obtain ⟨s1, s2, s3, s4, s5, s6, s7, s8, s9, s10, s11⟩ :=
          saveToFs_spec enc (getSavePath gens n fs w).w fs
            (joinSep b plotName) p
        cases hwe : (saveToFs enc (getSavePath gens n fs w).w fs
            (joinSep b plotName) p).err with
        | some e =>
            simp only [hwe]
            have hw0 := s11 e hwe
            refine ⟨f1, f2, f4, f3, n1, n2, s1, s2, s3, s4, ?_, ?_, ?_, ?_,
              ⟨0, ?_⟩, ?_⟩
            · simp [e1, hw0, s5]
            · simp [e3, e4, s6]
            · simpa [s7] using e5
            · simp [e2, s8]
            · simp [writePathsOf, e1, hw0]
            · intro h; exact absurd h (by simp)
        | none =>
            simp only [hwe]
            obtain ⟨bts, hbts, hws⟩ := s10 hwe
            have hb' : BaseIs (getSavePath gens n fs w).w b := hbase
            obtain ⟨i1, i2, i3, i4, i5, i6, i7, i8, i9, i10, ⟨k, i11⟩, i12⟩ :=
              saveDict_run enc gens hb' rest
                (saveToFs enc (getSavePath gens n fs w).w fs
                  (joinSep b plotName) p).fs
                (getSavePath gens n fs w).n
            have hp0 : writePathsOf (getSavePath gens n fs w).evs = [] := by
              simp [writePathsOf, e1]
            have hp1 : writePathsOf
                (saveToFs enc (getSavePath gens n fs w).w fs
                  (joinSep b plotName) p).evs =
                [joinSep b plotName] := by
              simp [writePathsOf, hws]
            refine ⟨by rw [i1, f1], by rw [i1, f2], by rw [i1, f4],
              by rw [i1, f3], by rw [i2]; exact n1, by rw [i2]; exact n2,
              by rw [i3, s1], by rw [i4, s2], by rw [i5, s3], by rw [i6, s4],
              ?_, ?_, ?_, ?_, ⟨k + 1, ?_⟩, ?_⟩
            · rw [i7, s5]
              simp [e1, applyWrites_append]
            · simp [e3, e4, s6, i8]
            · simpa [s7, i9] using e5
            · simp [e2, s8, i10]
            · rw [writePathsOf_append, writePathsOf_append, hp0, hp1, i11]
              simp [dictPaths]
            · intro herr2
              have hfull := i12 herr2
              rw [writePathsOf_append, writePathsOf_append, hp0, hp1, hfull]
              simp [dictPaths]
      · refine ⟨b, hbfp, ?_, ?_⟩
        · show CoreOK w fs n _ (saveDict enc gens w fs n ((plotName, p) :: rest))
          unfold saveDict
          simp only [herr]
          refine ⟨f1, f2, f4, f3, n1, n2, rfl, rfl, rfl, rfl, ?_, ?_, ?_, ?_,
            ⟨0, ?_⟩, ?_⟩
          · simp [e1]
          · simp [e3, e4]
          · exact e5
          · exact e2
          · simp [writePathsOf, e1]
          · intro h; exact absurd h (by simp)
        · intro _ herr2
          exfalso
          revert herr2
          unfold saveDict
          simp only [herr]
          simp

lemma saveSingle_entry {P : Type} (enc : P → Dict → Except Err (List Nat))
    (gens : Nat → String) (w : Writer) (fs : FS) (n : Nat) (p : P) :
    ∃ b, (w.version = none → b = w.filepath) ∧
      CoreOK w fs n [b] (saveSingle enc gens w fs n p) ∧
      ((saveSingle enc gens w fs n p).err = none →
        (getSavePath gens n fs w).res = .ok b) := by
  obtain ⟨b, hbase, hres⟩ := gsp_spec gens n fs w
  obtain ⟨f1, f2, f3, f4⟩ := gsp_w_fields gens n fs w
  obtain ⟨e1, e2, e3, e4, e5⟩ := gsp_evs_counts gens n fs w
  obtain ⟨n1, n2⟩ := gsp_n_bounds gens n fs w
  have hbfp : w.version = none → b = w.filepath := by
    intro hv
    rcases hbase with ⟨_, hb⟩ | ⟨⟨v, hv'⟩, _⟩
    · rw [hb, f1]
    · rw [f2, hv] at hv'; cases hv'
  rcases hres with hok | herr
  · refine ⟨b, hbfp, ?_, fun _ => hok⟩
    show CoreOK w fs n _ (saveSingle enc gens w fs n p)
    unfold saveSingle
    simp only [hok, getFilepathStr]
    obtain ⟨s1, s2, s3, s4, s5, s6, s7, s8, s9, s10, s11⟩ :=
      saveToFs_spec enc (getSavePath gens n fs w).w fs b p
    have hp0 : writePathsOf (getSavePath gens n fs w).evs = [] := by
      simp [writePathsOf, e1]
    refine ⟨f1, f2, f4, f3, n1, n2, s1, s2, s3, s4, ?_, ?_, ?_, ?_, ?_, ?_⟩
    · rw [s5]; simp [e1, applyWrites_append]
    · simp [e3, e4, s6]
    · simpa [s7] using e5
    · simp [e2, s8]
    · rcases s9 with h | h
      · exact ⟨0, by rw [writePathsOf_append, hp0, h]; simp⟩
      · exact ⟨1, by rw [writePathsOf_append, hp0, h]; simp⟩
    · intro herr2
      have herr' : (saveToFs enc (getSavePath gens n fs w).w fs b p).err =
          none := herr2
      obtain ⟨bts, _, hws⟩ := s10 herr'
      rw [writePathsOf_append, hp0]
      simp [writePathsOf, hws]
  · refine ⟨b, hbfp, ?_, ?_⟩
    · show CoreOK w fs n _ (saveSingle enc gens w fs n p)
      unfold saveSingle
      simp only [herr]
      refine ⟨f1, f2, f4, f3, n1, n2, rfl, rfl, rfl, rfl, ?_, ?_, ?_, ?_,
        ⟨0, ?_⟩, ?_⟩
      · simp [e1]
      · simp [e3, e4]
      · exact e5
      · exact e2
      · simp [writePathsOf, e1]
      · intro h; exact absurd h (by simp)
    · intro herr2
      exfalso
      revert herr2
      unfold saveSingle
      simp only [herr]
      simp

/-! ## Byte-level writes under a total encoder -/

lemma pureEnc_saveToFs_ok {P : Type} (encF : P → Dict → List Nat)
    (w : Writer) (fs : FS) (path : String) (p : P)
    (h : (saveToFs (pureEnc encF) w fs path p).err = none) :
    writesOf (saveToFs (pureEnc encF) w fs path p).evs =
      [(path, encF p w.saveArgs)] := by
  obtain ⟨_, _, _, _, _, _, _, _, _, s10, _⟩ :=
    saveToFs_spec (pureEnc encF) w fs path p
  obtain ⟨bts, hbts, hws⟩ := s10 h
  have hok : Except.ok (encF p w.saveArgs) = Except.ok bts := hbts
  rw [hws, (Except.ok.inj hok).symm]

lemma saveList_writes_pure_cons {P : Type} (encF : P → Dict → List Nat)
    (gens : Nat → String) {w : Writer} {b : String} (p : P) (rest : List P)
    (idx : Nat) (fs : FS) (n : Nat) (evs0 : List Ev)
    (hpr : getSavePath gens n fs w = ⟨.ok b, w, n, evs0⟩)
    (h1 : writesOf evs0 = [])
    (ih : ∀ idx fs n,
      (saveList (pureEnc encF) gens w fs n rest idx).err = none →
      writesOf (saveList (pureEnc encF) gens w fs n rest idx).evs =
        (rest.enumFrom idx).map fun ip =>
          (joinSep b (toString ip.1 ++ ".png"), encF ip.2 w.saveArgs))
    (herr : (saveList (pureEnc encF) gens w fs n (p :: rest) idx).err = none) :
    writesOf (saveList (pureEnc encF) gens w fs n (p :: rest) idx).evs =
      ((p :: rest).enumFrom idx).map fun ip =>
        (joinSep b (toString ip.1 ++ ".png"), encF ip.2 w.saveArgs) := by
  revert herr
  unfold saveList
  rw [hpr]
  simp only [getFilepathStr]
  cases hwe : (saveToFs (pureEnc encF) w fs
      (joinSep b (toString idx ++ ".png")) p).err with
  | some e => simp only [hwe]; intro h; cases h
  | none =>
      simp only [hwe]
      intro herr
      have hstf := pureEnc_saveToFs_ok encF w fs
        (joinSep b (toString idx ++ ".png")) p hwe
      have hrest := ih (idx + 1)
        (saveToFs (pureEnc encF) w fs (joinSep b (toString idx ++ ".png")) p).fs
        n herr
      rw [writesOf_append, writesOf_append, h1, hstf, hrest]
      simp [List.enumFrom]

lemma saveList_writes_pure {P : Type} (encF : P → Dict → List Nat)
    (gens : Nat → String) {w : Writer} {b : String} (hb : BaseIs w b) :
    ∀ (ps : List P) (idx : Nat) (fs : FS) (n : Nat),
      (saveList (pureEnc encF) gens w fs n ps idx).err = none →
      writesOf (saveList (pureEnc encF) gens w fs n ps idx).evs =
        (ps.enumFrom idx).map fun ip =>
          (joinSep b (toString ip.1 ++ ".png"), encF ip.2 w.saveArgs) := by
  intro ps
  induction ps with
  | nil => intro idx fs n _; simp [saveList, List.enumFrom]
  | cons p rest ih =>
      intro idx fs n herr
      have hg := gsp_of_base hb gens n fs
      by_cases hv : w.version = none
      · rw [if_pos hv] at hg
        exact saveList_writes_pure_cons encF gens p rest idx fs n [] hg rfl
          ih herr
      · rw [if_neg hv] at hg
        by_cases hex :
            (fs.exists' b &&
              !(Val.truthyOpt (Dict.get w.saveArgs "multiFile"))) = true
        · rw [if_pos hex] at hg
          exfalso
          revert herr
          unfold saveList
          rw [hg]
          simp
        · rw [if_neg hex] at hg
          exact saveList_writes_pure_cons encF gens p rest idx fs n
            [Ev.existsQ b (fs.exists' b)] hg (by simp [writesOf]) ih herr

lemma saveDict_writes_pure_cons {P : Type} (encF : P → Dict → List Nat)
    (gens : Nat → String) {w : Writer} {b : String} (plotName : String)
    (p : P) (rest : List (String × P)) (fs : FS) (n : Nat) (evs0 : List Ev)
    (hpr : getSavePath gens n fs w = ⟨.ok b, w, n, evs0⟩)
    (h1 : writesOf evs0 = [])
    (ih : ∀ fs n,
      (saveDict (pureEnc encF) gens w fs n rest).err = none →
      writesOf (saveDict (pureEnc encF) gens w fs n rest).evs =
        rest.map fun kv => (joinSep b kv.1, encF kv.2 w.saveArgs))
    (herr : (saveDict (pureEnc encF) gens w fs n ((plotName, p) :: rest)).err
      = none) :
    writesOf (saveDict (pureEnc encF) gens w fs n ((plotName, p) :: rest)).evs
      = ((plotName, p) :: rest).map fun kv =>
          (joinSep b kv.1, encF kv.2 w.saveArgs) := by
  revert herr
  unfold saveDict
  rw [hpr]
  simp only [getFilepathStr]
  cases hwe : (saveToFs (pureEnc encF) w fs (joinSep b plotName) p).err with
  | some e => simp only [hwe]; intro h; cases h
  | none =>
      simp only [hwe]
      intro herr
      have hstf := pureEnc_saveToFs_ok encF w fs (joinSep b plotName) p hwe
      have hrest := ih
        (saveToFs (pureEnc encF) w fs (joinSep b plotName) p).fs n herr
      rw [writesOf_append, writesOf_append, h1, hstf, hrest]
      simp

lemma saveDict_writes_pure {P : Type} (encF : P → Dict → List Nat)
    (gens : Nat → String) {w : Writer} {b : String} (hb : BaseIs w b) :
    ∀ (m : List (String × P)) (fs : FS) (n : Nat),
      (saveDict (pureEnc encF) gens w fs n m).err = none →
      writesOf (saveDict (pureEnc encF) gens w fs n m).evs =
        m.map fun kv => (joinSep b kv.1, encF kv.2 w.saveArgs) := by
  intro m
  induction m with
  | nil => intro fs n _; simp [saveDict]
  | cons kv rest ih =>
      intro fs n herr
      obtain ⟨plotName, p⟩ := kv
      have hg := gsp_of_base hb gens n fs
      by_cases hv : w.version = none
      · rw [if_pos hv] at hg
        exact saveDict_writes_pure_cons encF gens plotName p rest fs n [] hg
          rfl ih herr
      · rw [if_neg hv] at hg
        by_cases hex :
            (fs.exists' b &&
              !(Val.truthyOpt (Dict.get w.saveArgs "multiFile"))) = true
        · rw [if_pos hex] at hg
          exfalso
          revert herr
          unfold saveDict
          rw [hg]
          simp
        · rw [if_neg hex] at hg
          exact saveDict_writes_pure_cons encF gens plotName p rest fs n
            [Ev.existsQ b (fs.exists' b)] hg (by simp [writesOf]) ih herr

lemma savePost_err (r : SRes) : (savePost r).err = r.err := by
  unfold savePost
  cases hre : r.err with
  | some e => exact hre
  | none => rfl

lemma savePost_writes (r : SRes) :
    writesOf (savePost r).evs = writesOf r.evs := by
  unfold savePost
  cases hre : r.err with
  | some e => rfl
  | none => simp [writesOf]

lemma saveSingle_writes_pure_entry {P : Type} (encF : P → Dict → List Nat)
    (gens : Nat → String) (w : Writer) (fs : FS) (n : Nat) (p : P)
    (h : (saveSingle (pureEnc encF) gens w fs n p).err = none) :
    ∃ b, writesOf (saveSingle (pureEnc encF) gens w fs n p).evs =
        [(b, encF p w.saveArgs)] ∧
      (getSavePath gens n fs w).res = .ok b ∧
      (w.version = none → b = w.filepath) := by
  obtain ⟨b, hbase, hres⟩ := gsp_spec gens n fs w
  obtain ⟨f1, f2, f3, f4⟩ := gsp_w_fields gens n fs w
  obtain ⟨e1, _, _, _, _⟩ := gsp_evs_counts gens n fs w
  have hbfp : w.version = none → b = w.filepath := by
    intro hv
    rcases hbase with ⟨_, hb⟩ | ⟨⟨v, hv'⟩, _⟩
    · rw [hb, f1]
    · rw [f2, hv] at hv'; cases hv'
  rcases hres with hok | herr
  · refine ⟨b, ?_, hok, hbfp⟩
    revert h
    unfold saveSingle
    simp only [hok, getFilepathStr]
    intro h
    have hstf := pureEnc_saveToFs_ok encF (getSavePath gens n fs w).w fs b p h
    rw [writesOf_append, e1, hstf, f3]
    simp
  · exfalso
    revert h
    unfold saveSingle
    simp only [herr]
    simp

lemma saveList_writes_pure_entry {P : Type} (encF : P → Dict → List Nat)
    (gens : Nat → String) (w : Writer) (fs : FS) (n : Nat) (ps : List P)
    (idx : Nat)
    (h : (saveList (pureEnc encF) gens w fs n ps idx).err = none) :
    ∃ b, writesOf (saveList (pureEnc encF) gens w fs n ps idx).evs =
        (ps.enumFrom idx).map (fun ip =>
          (joinSep b (toString ip.1 ++ ".png"), encF ip.2 w.saveArgs)) ∧
      (ps ≠ [] → (getSavePath gens n fs w).res = .ok b) ∧
      (w.version = none → b = w.filepath) := by
  cases ps with
  | nil =>
      exact ⟨w.filepath, by simp [saveList, List.enumFrom],
        fun hne => absurd rfl hne, fun _ => rfl⟩
  | cons p rest =>
      obtain ⟨b, hbase, hres⟩ := gsp_spec gens n fs w
      obtain ⟨f1, f2, f3, f4⟩ := gsp_w_fields gens n fs w
      obtain ⟨e1, _, _, _, _⟩ := gsp_evs_counts gens n fs w
      have hbfp : w.version = none → b = w.filepath := by
        intro hv
        rcases hbase with ⟨_, hb⟩ | ⟨⟨v, hv'⟩, _⟩
        · rw [hb, f1]
        · rw [f2, hv] at hv'; cases hv'
      rcases hres with hok | herr
      · refine ⟨b, ?_, fun _ => hok, hbfp⟩
        revert h
        unfold saveList
        simp only [hok, getFilepathStr]
        cases hwe : (saveToFs (pureEnc encF) (getSavePath gens n fs w).w fs
            (joinSep b (toString idx ++ ".png")) p).err with
        | some e => simp only [hwe]; intro h; cases h
        | none =>
            simp only [hwe]
            intro herr
            have hstf := pureEnc_saveToFs_ok encF (getSavePath gens n fs w).w
              fs (joinSep b (toString idx ++ ".png")) p hwe
            have hrest := saveList_writes_pure encF gens hbase rest (idx + 1)
              (saveToFs (pureEnc encF) (getSavePath gens n fs w).w fs
                (joinSep b (toString idx ++ ".png")) p).fs
              (getSavePath gens n fs w).n herr
            rw [writesOf_append, writesOf_append, e1, hstf, hrest, f3]
            simp [List.enumFrom]
      · exfalso
        revert h
        unfold saveList
        simp only [herr]
        simp

lemma saveDict_writes_pure_entry {P : Type} (encF : P → Dict → List Nat)
    (gens : Nat → String) (w : Writer) (fs : FS) (n : Nat)
    (m : List (String × P))
    (h : (saveDict (pureEnc encF) gens w fs n m).err = none) :
    ∃ b, writesOf (saveDict (pureEnc encF) gens w fs n m).evs =
        m.map (fun kv => (joinSep b kv.1, encF kv.2 w.saveArgs)) ∧
      (m ≠ [] → (getSavePath gens n fs w).res = .ok b) ∧
      (w.version = none → b = w.filepath) := by
  cases m with
  | nil =>
      exact ⟨w.filepath, by simp [saveDict],
        fun hne => absurd rfl hne, fun _ => rfl⟩
  | cons kv rest =>
      obtain ⟨plotName, p⟩ := kv
      obtain ⟨b, hbase, hres⟩ := gsp_spec gens n fs w
      obtain ⟨f1, f2, f3, f4⟩ := gsp_w_fields gens n fs w
      obtain ⟨e1, _, _, _, _⟩ := gsp_evs_counts gens n fs w
      have hbfp : w.version = none → b = w.filepath := by
        intro hv
        rcases hbase with ⟨_, hb⟩ | ⟨⟨v, hv'⟩, _⟩
        · rw [hb, f1]
        · rw [f2, hv] at hv'; cases hv'
      rcases hres with hok | herr
      · refine ⟨b, ?_, fun _ => hok, hbfp⟩
        revert h
        unfold saveDict
        simp only [hok, getFilepathStr]
        cases hwe : (saveToFs (pureEnc encF) (getSavePath gens n fs w).w fs
            (joinSep b plotName) p).err with
        | some e => simp only [hwe]; intro h; cases h
        | none =>
            simp only [hwe]
            intro herr
            have hstf := pureEnc_saveToFs_ok encF (getSavePath gens n fs w).w
              fs (joinSep b plotName) p hwe
            have hrest := saveDict_writes_pure encF gens hbase rest
              (saveToFs (pureEnc encF) (getSavePath gens n fs w).w fs
                (joinSep b plotName) p).fs
              (getSavePath gens n fs w).n herr
            rw [writesOf_append, writesOf_append, e1, hstf, hrest, f3]
            simp
      · exfalso
        revert h
        unfold saveDict
        simp only [herr]
        simp

/-- On a successful save under a total encoder, the traced writes are
exactly the shape-determined layout paired with each plot's direct
encoding under the merged encoder arguments. -/
lemma save_writes_pure {P : Type} (encF : P → Dict → List Nat)
    (gens : Nat → String) (w : Writer) (fs : FS) (n : Nat)
    (data : Payload P)
    (h : (save (pureEnc encF) gens w fs n data).err = none) :
    ∃ b, writesOf (save (pureEnc encF) gens w fs n data).evs =
        expectedWrites encF w.saveArgs b data ∧
      (payloadNonempty data → (getSavePath gens n fs w).res = .ok b) ∧
      (w.version = none → b = w.filepath) := by
  cases data with
  | single p =>
      have h' : (saveSingle (pureEnc encF) gens w fs n p).err = none := by
        have := savePost_err (saveSingle (pureEnc encF) gens w fs n p)
        rw [← this]; exact h
      obtain ⟨b, hw, hres, hbfp⟩ :=
        saveSingle_writes_pure_entry encF gens w fs n p h'
      refine ⟨b, ?_, fun _ => hres, hbfp⟩
      show writesOf (savePost (saveSingle (pureEnc encF) gens w fs n p)).evs = _
      rw [savePost_writes, hw]
      rfl
  | list ps =>
      have h' : (saveList (pureEnc encF) gens w fs n ps 0).err = none := by
        have := savePost_err (saveList (pureEnc encF) gens w fs n ps 0)
        rw [← this]; exact h
      obtain ⟨b, hw, hres, hbfp⟩ :=
        saveList_writes_pure_entry encF gens w fs n ps 0 h'
      refine ⟨b, ?_, fun hne => hres hne, hbfp⟩
      show writesOf (savePost (saveList (pureEnc encF) gens w fs n ps 0)).evs = _
      rw [savePost_writes, hw]
      rfl
  | dict m =>
      have h' : (saveDict (pureEnc encF) gens w fs n m).err = none := by
        have := savePost_err (saveDict (pureEnc encF) gens w fs n m)
        rw [← this]; exact h
      obtain ⟨b, hw, hres, hbfp⟩ :=
        saveDict_writes_pure_entry encF gens w fs n m h'
      refine ⟨b, ?_, fun hne => hres hne, hbfp⟩
      show writesOf (savePost (saveDict (pureEnc encF) gens w fs n m)).evs = _
      rw [savePost_writes, hw]
      rfl

/-! ## First failing element of a sequence save -/

lemma saveToFs_encFail {P : Type} (enc : P → Dict → Except Err (List Nat))
    (w : Writer) (fs : FS) (path : String) (p : P) (e : Err)
    (henc : enc p w.saveArgs = .error e) :
    saveToFs enc w fs path p = ⟨fs, [], some e⟩ := by
  unfold saveToFs; rw [henc]

lemma saveToFs_ok_of_no_faults {P : Type}
    (enc : P → Dict → Except Err (List Nat)) (w : Writer) (fs : FS)
    (path : String) (p : P) (bts : List Nat)
    (henc : enc p w.saveArgs = .ok bts)
    (hfo : fs.failOpen = []) (hfw : fs.failWrite = []) :
    (saveToFs enc w fs path p).err = none := by
  unfold saveToFs
  rw [henc]
  simp [hfo, hfw]

/-- A sequence save in plain mode whose elements encode fine up to the
first failing one: the failing element's exception is surfaced and the
earlier elements' encodings are exactly what was written. -/
lemma saveList_firstFail {P : Type} (enc : P → Dict → Except Err (List Nat))
    (gens : Nat → String) {w : Writer} (hv : w.version = none)
    (encF : P → List Nat) (bp : P) (cs : List P) (e : Err)
    (hbad : enc bp w.saveArgs = .error e) :
    ∀ (as : List P), (∀ p ∈ as, enc p w.saveArgs = .ok (encF p)) →
      ∀ (idx : Nat) (fs : FS) (n : Nat),
        fs.failOpen = [] → fs.failWrite = [] →
        (saveList enc gens w fs n (as ++ bp :: cs) idx).err = some e ∧
        writesOf (saveList enc gens w fs n (as ++ bp :: cs) idx).evs =
          (as.enumFrom idx).map fun ip =>
            (joinSep w.filepath (toString ip.1 ++ ".png"), encF ip.2) := by
  intro as
  induction as with
  | nil =>
      intro _ idx fs n _ _
      have hstf := saveToFs_encFail enc w fs
        (joinSep w.filepath (toString idx ++ ".png")) bp e hbad
      rw [List.nil_append]
      unfold saveList
      rw [gsp_none gens n fs w hv]
      simp only [getFilepathStr, hstf]
      refine ⟨?_, ?_⟩ <;> simp [writesOf, List.enumFrom]
  | cons a as ih =>
      intro hok idx fs n hfo hfw
      have hoka : enc a w.saveArgs = .ok (encF a) := hok a (by simp)
      have hwe := saveToFs_ok_of_no_faults enc w fs
        (joinSep w.filepath (toString idx ++ ".png")) a (encF a) hoka hfo hfw
      obtain ⟨s1, s2, s3, s4, s5, s6, s7, s8, s9, s10, s11⟩ :=
        saveToFs_spec enc w fs (joinSep w.filepath (toString idx ++ ".png")) a
      obtain ⟨bts, hbts, hws⟩ := s10 hwe
      have hbeq : bts = encF a := by
        have : Except.ok (encF a) = Except.ok bts := hoka.symm.trans hbts
        exact (Except.ok.inj this).symm
      obtain ⟨iherr, ihws⟩ := ih (fun p hp => hok p (by simp [hp])) (idx + 1)
        (saveToFs enc w fs (joinSep w.filepath (toString idx ++ ".png")) a).fs
        n (by rw [s3, hfo]) (by rw [s4, hfw])
      rw [List.cons_append]
      unfold saveList
      rw [gsp_none gens n fs w hv]
      simp only [getFilepathStr]
      cases hwe2 : (saveToFs enc w fs
          (joinSep w.filepath (toString idx ++ ".png")) a).err with
      | some e2 => rw [hwe2] at hwe; cases hwe
      | none =>
          simp only [hwe2]
          refine ⟨iherr, ?_⟩
          rw [writesOf_append, writesOf_append, hws, ihws, hbeq]
          simp [List.enumFrom, writesOf]

/-! ## The whole save call -/

lemma expectedPaths_list {P : Type} (b : String) (ps : List P) :
    expectedPaths b (Payload.list ps) = listPathsFrom b 0 ps.length := by
  simp [expectedPaths, listPathsFrom, List.range_eq_range']

lemma expectedPaths_dict {P : Type} (b : String) (m : List (String × P)) :
    expectedPaths b (Payload.dict m) = dictPaths b m := rfl

lemma expectedPaths_single {P : Type} (b : String) (p : P) :
    expectedPaths b (Payload.single p) = [b] := rfl

/-- What the invalidation tail adds on top of a payload branch run:
exactly one cache invalidation, of the unversioned declared path, and
only on success. -/
lemma savePost_spec (w : Writer) (fs : FS) (n : Nat) (paths : List String)
    (r : SRes) (core : CoreOK w fs n paths r) :
    (savePost r).w.filepath = w.filepath ∧
    (savePost r).w.version = w.version ∧
    (savePost r).w.protocol = w.protocol ∧
    (savePost r).w.saveArgs = w.saveArgs ∧
    n ≤ (savePost r).n ∧ (savePost r).n ≤ n + 1 ∧
    (savePost r).fs.openHandles = fs.openHandles ∧
    (savePost r).fs.failOpen = fs.failOpen ∧
    (savePost r).fs.failWrite = fs.failWrite ∧
    (savePost r).fs.files = applyWrites fs.files (writesOf (savePost r).evs) ∧
    openCount (savePost r).evs = closeCount (savePost r).evs ∧
    genCount (savePost r).evs ≤ 1 ∧
    (∃ k, writePathsOf (savePost r).evs = paths.take k) ∧
    ((savePost r).err = none → writePathsOf (savePost r).evs = paths) ∧
    ((savePost r).err = none →
      invalsOf (savePost r).evs = [w.filepath] ∧
      (savePost r).fs.cached = fs.cached.filter (fun q => !(q = w.filepath))) ∧
    ((savePost r).err ≠ none →
      invalsOf (savePost r).evs = [] ∧ (savePost r).fs.cached = fs.cached) ∧
    (savePost r).err = r.err := by
  obtain ⟨c1, c2, c3, c4, c5, c6, c7, c8, c9, c10, c11, c12, c13, c14,
    ⟨k, c15⟩, c16⟩ := core
  cases hre : r.err with
  | some e =>
      have hpost : savePost r = r := by unfold savePost; rw [hre]
      rw [hpost]
      refine ⟨c1, c2, c3, c4, c5, c6, c7, c9, c10, c11, c12, c13, ⟨k, c15⟩,
        ?_, ?_, fun _ => ⟨c14, c8⟩, hre⟩
      · intro h; rw [hre] at h; cases h
      · intro h; rw [hre] at h; cases h
  | none =>
      have hpost : savePost r =
          ⟨r.fs.invalidateCache r.w.filepath, r.w, r.n,
            r.evs ++ [Ev.invalCache r.w.filepath], none⟩ := by
        unfold savePost; rw [hre]; rfl
      rw [hpost]
      have hwinv : writesOf [Ev.invalCache r.w.filepath] = [] := rfl
      have hpinv : writePathsOf [Ev.invalCache r.w.filepath] = [] := rfl
      refine ⟨c1, c2, c3, c4, c5, c6, c7, c9, c10, ?_, ?_, ?_, ⟨k, ?_⟩,
        ?_, ?_, ?_, by simp [hre]⟩
      · show (r.fs.invalidateCache r.w.filepath).files = _
        simp only [FS.invalidateCache]
        rw [c11]
        simp [hwinv]
      · show openCount (r.evs ++ [Ev.invalCache r.w.filepath]) = _
        rw [openCount_append, closeCount_append, c12]
        simp [openCount, closeCount]
      · show genCount (r.evs ++ [Ev.invalCache r.w.filepath]) ≤ 1
        rw [genCount_append]
        simpa [genCount] using c13
      · show writePathsOf (r.evs ++ [Ev.invalCache r.w.filepath]) = _
        rw [writePathsOf_append, hpinv, c15]
        simp
      · intro
        show writePathsOf (r.evs ++ [Ev.invalCache r.w.filepath]) = _
        rw [writePathsOf_append, hpinv, c16 hre]
        simp
      · intro
        constructor
        · show invalsOf (r.evs ++ [Ev.invalCache r.w.filepath]) = _
          rw [invalsOf_append, c14]
          simp [invalsOf, c1]
        · show (r.fs.invalidateCache r.w.filepath).cached = _
          simp only [FS.invalidateCache]
          rw [c8, c1]
      · intro h; exact absurd rfl h

/-- The master specification of one `save` call: some base path `b`
(the declared path in plain mode) is settled; writer configuration,
handle count and fault injection are untouched; the final files are
the initial files plus exactly the traced writes; opens balance
closes; at most one save version is generated; the traced write paths
are a prefix of the shape-determined layout under `b` — all of it on
success; on success exactly one cache invalidation happens, of the
unversioned declared path, and none on failure; and on a successful
nonempty save the first path resolution returned `b`. -/
lemma save_spec {P : Type} (enc : P → Dict → Except Err (List Nat))
    (gens : Nat → String) (w : Writer) (fs : FS) (n : Nat)
    (data : Payload P) :
    ∃ b, (w.version = none → b = w.filepath) ∧
      (save enc gens w fs n data).w.filepath = w.filepath ∧
      (save enc gens w fs n data).w.version = w.version ∧
      (save enc gens w fs n data).w.protocol = w.protocol ∧
      (save enc gens w fs n data).w.saveArgs = w.saveArgs ∧
      n ≤ (save enc gens w fs n data).n ∧
      (save enc gens w fs n data).n ≤ n + 1 ∧
      (save enc gens w fs n data).fs.openHandles = fs.openHandles ∧
      (save enc gens w fs n data).fs.failOpen = fs.failOpen ∧
      (save enc gens w fs n data).fs.failWrite = fs.failWrite ∧
      (save enc gens w fs n data).fs.files =
        applyWrites fs.files (writesOf (save enc gens w fs n data).evs) ∧
      openCount (save enc gens w fs n data).evs =
        closeCount (save enc gens w fs n data).evs ∧
      genCount (save enc gens w fs n data).evs ≤ 1 ∧
      (∃ k, writePathsOf (save enc gens w fs n data).evs =
        (expectedPaths b data).take k) ∧
      ((save enc gens w fs n data).err = none →
        writePathsOf (save enc gens w fs n data).evs = expectedPaths b data) ∧
      ((save enc gens w fs n data).err = none →
        invalsOf (save enc gens w fs n data).evs = [w.filepath] ∧
        (save enc gens w fs n data).fs.cached =
          fs.cached.filter (fun q => !(q = w.filepath))) ∧
      ((save enc gens w fs n data).err ≠ none →
        invalsOf (save enc gens w fs n data).evs = [] ∧
        (save enc gens w fs n data).fs.cached = fs.cached) ∧
      (payloadNonempty data → (save enc gens w fs n data).err = none →
        (getSavePath gens n fs w).res = .ok b) := by
  cases data with
  | single p =>
      obtain ⟨b, hbfp, core, hlast⟩ := saveSingle_entry enc gens w fs n p
      have post := savePost_spec w fs n [b] _ core
      obtain ⟨p1, p2, p3, p4, p5, p6, p7, p8, p9, p10, p11, p12, p13, p14,
        p15, p16, p17⟩ := post
      refine ⟨b, hbfp, ?_⟩
      simp only [save, expectedPaths_single]
      exact ⟨p1, p2, p3, p4, p5, p6, p7, p8, p9, p10, p11, p12, p13, p14,
        p15, p16, fun _ h => hlast (by rw [← p17]; exact h)⟩
  | list ps =>
      obtain ⟨b, hbfp, core, hlast⟩ := saveList_entry enc gens w fs n ps 0
      have post := savePost_spec w fs n (listPathsFrom b 0 ps.length) _ core
      obtain ⟨p1, p2, p3, p4, p5, p6, p7, p8, p9, p10, p11, p12, p13, p14,
        p15, p16, p17⟩ := post
      refine ⟨b, hbfp, ?_⟩
      simp only [save, expectedPaths_list]
      exact ⟨p1, p2, p3, p4, p5, p6, p7, p8, p9, p10, p11, p12, p13, p14,
        p15, p16, fun hne h => hlast hne (by rw [← p17]; exact h)⟩
  | dict m =>
      obtain ⟨b, hbfp, core, hlast⟩ := saveDict_entry enc gens w fs n m
      have post := savePost_spec w fs n (dictPaths b m) _ core
      obtain ⟨p1, p2, p3, p4, p5, p6, p7, p8, p9, p10, p11, p12, p13, p14,
        p15, p16, p17⟩ := post
      refine ⟨b, hbfp, ?_⟩
      simp only [save, expectedPaths_dict]
      exact ⟨p1, p2, p3, p4, p5, p6, p7, p8, p9, p10, p11, p12, p13, p14,
        p15, p16, fun hne h => hlast hne (by rw [← p17]; exact h)⟩

/-! ## Dictionary lemmas -/

lemma Dict.get_set (d : Dict) (k1 k : String) (v : Val) :
    Dict.get (Dict.set d k1 v) k = if k1 = k then some v else Dict.get d k := by
  induction d with
  | nil =>
      show Dict.get [(k1, v)] k = _
      by_cases h : k1 = k <;> simp [Dict.get, h]
  | cons kv rest ih =>
      obtain ⟨k0, v0⟩ := kv
      show Dict.get
        (if k0 = k1 then (k1, v) :: rest else (k0, v0) :: Dict.set rest k1 v)
        k = _
      by_cases h0 : k0 = k1
      · rw [if_pos h0, Dict.get]
        by_cases h : k1 = k
        · rw [if_pos h, if_pos h]
        · rw [if_neg h, if_neg h, Dict.get,
            if_neg (fun he => h (h0.symm.trans he))]
      · rw [if_neg h0, Dict.get]
        by_cases hk : k0 = k
        · have hne : ¬ k1 = k := fun he => h0 (hk.trans he.symm)
          rw [if_pos hk, if_neg hne, Dict.get, if_pos hk]
        · rw [if_neg hk, ih]
          by_cases h : k1 = k
          · rw [if_pos h, if_pos h]
          · rw [if_neg h, if_neg h, Dict.get, if_neg hk]

lemma Dict.get_append_left (a b : Dict) (k : String)
    (h : Dict.get a k = none) :
    Dict.get (a ++ b) k = Dict.get b k := by
  induction a with
  | nil => rfl
  | cons kv rest ih =>
      obtain ⟨k0, v0⟩ := kv
      by_cases h0 : k0 = k
      · rw [Dict.get] at h; simp [h0] at h
      · rw [Dict.get] at h
        rw [if_neg h0] at h
        show Dict.get ((k0, v0) :: (rest ++ b)) k = _
        rw [Dict.get, if_neg h0]
        exact ih h

lemma Dict.set_of_get_none (d : Dict) (k : String) (v : Val)
    (h : Dict.get d k = none) :
    Dict.set d k v = d ++ [(k, v)] := by
  induction d with
  | nil => rfl
  | cons kv rest ih =>
      obtain ⟨k0, v0⟩ := kv
      by_cases h0 : k0 = k
      · rw [Dict.get] at h; simp [h0] at h
      · rw [Dict.get, if_neg h0] at h
        show Dict.set ((k0, v0) :: rest) k v = _
        rw [Dict.set]
        simp only [if_neg h0]
        rw [ih h]
        rfl

lemma Dict.update_append_of_disjoint :
    ∀ (d acc : Dict), Dict.NodupKeys d →
      (∀ k ∈ d.map Prod.fst, Dict.get acc k = none) →
      Dict.update acc d = acc ++ d := by
  intro d
  induction d with
  | nil => intro acc _ _; simp [Dict.update]
  | cons kv rest ih =>
      intro acc hnd hdis
      obtain ⟨k0, v0⟩ := kv
      have hnd' : Dict.NodupKeys rest := by
        have := hnd
        unfold Dict.NodupKeys at this ⊢
        simp only [List.map_cons, List.nodup_cons] at this
        exact this.2
      have hk0 : k0 ∉ rest.map Prod.fst := by
        have := hnd
        unfold Dict.NodupKeys at this
        simp only [List.map_cons, List.nodup_cons] at this
        exact this.1
      have hset : Dict.set acc k0 v0 = acc ++ [(k0, v0)] :=
        Dict.set_of_get_none acc k0 v0 (hdis k0 (by simp))
      have hstep : Dict.update acc ((k0, v0) :: rest) =
          Dict.update (Dict.set acc k0 v0) rest := rfl
      rw [hstep, hset, ih (acc ++ [(k0, v0)]) hnd' ?_]
      · simp
      · intro k hk
        have hne : k ≠ k0 := fun he => hk0 (he ▸ hk)
        rw [Dict.get_append_left _ _ _ (hdis k (by simp [hk]))]
        rw [Dict.get, if_neg (fun he => hne he.symm)]
        rfl

lemma Dict.update_nil (d : Dict) (h : Dict.NodupKeys d) :
    Dict.update [] d = d := by
  have := Dict.update_append_of_disjoint d [] h (fun k _ => rfl)
  simpa using this

lemma Dict.get_filter_ne (d : Dict) (k : String) :
    Dict.get (d.filter fun kv => !(kv.1 = k)) k = none := by
  induction d with
  | nil => rfl
  | cons kv rest ih =>
      obtain ⟨k0, v0⟩ := kv
      by_cases h0 : k0 = k
      · simp only [List.filter, h0]
        simpa using ih
      · simp only [List.filter]
        rw [show (!(((k0, v0) : String × Val).1 = k) : Bool) = true by
          simp [h0]]
        show Dict.get ((k0, v0) :: _) k = none
        rw [Dict.get, if_neg h0]
        exact ih

lemma Dict.get_update_none (d1 d2 : Dict) (k : String)
    (h1 : Dict.get d1 k = none) (h2 : Dict.get d2 k = none) :
    Dict.get (Dict.update d1 d2) k = none := by
  induction d2 generalizing d1 with
  | nil => exact h1
  | cons kv rest ih =>
      obtain ⟨k0, v0⟩ := kv
      by_cases h0 : k0 = k
      · rw [Dict.get] at h2; simp [h0] at h2
      · rw [Dict.get, if_neg h0] at h2
        have hstep : Dict.update d1 ((k0, v0) :: rest) =
            Dict.update (Dict.set d1 k0 v0) rest := rfl
        rw [hstep]
        refine ih _ ?_ h2
        rw [Dict.get_set, if_neg h0]
        exact h1

lemma Dict.setdefault_of_none (d : Dict) (k : String) (v : Val)
    (h : Dict.get d k = none) :
    Dict.setdefault d k v = d ++ [(k, v)] := by
  unfold Dict.setdefault; rw [h]

lemma Dict.setdefault_of_some (d : Dict) (k : String) (v m : Val)
    (h : Dict.get d k = some m) :
    Dict.setdefault d k v = d := by
  unfold Dict.setdefault; rw [h]

/-! ## Store lemmas -/

lemma find_map_write (l : List (Nat × Dict)) (b : Nat) (d : Dict) (a : Nat)
    (h : a ≠ b) :
    (l.map fun c => if c.1 = b then (b, d) else c).find?
        (fun c => c.1 = a) = l.find? (fun c => c.1 = a) := by
  induction l with
  | nil => rfl
  | cons c cs ih =>
      rw [List.map_cons]
      by_cases hca : c.1 = a
      · have hcb : ¬ c.1 = b := fun he => h (hca.symm.trans he)
        rw [if_neg hcb]
        rw [List.find?_cons_of_pos _ (by simp [hca]),
          List.find?_cons_of_pos _ (by simp [hca])]
      · by_cases hcb : c.1 = b
        · rw [if_pos hcb]
          rw [List.find?_cons_of_neg _ (by simp [Ne.symm h]),
            List.find?_cons_of_neg _ (by simp [hca])]
          exact ih
        · rw [if_neg hcb]
          rw [List.find?_cons_of_neg _ (by simp [hca]),
            List.find?_cons_of_neg _ (by simp [hca])]
          exact ih

lemma Store.read_write_ne (σ : Store) (a b : Nat) (d : Dict) (h : a ≠ b) :
    (σ.write b d).read a = σ.read a := by
  unfold Store.write Store.read
  simp only []
  rw [find_map_write σ.cells b d a h]

lemma Store.read_alloc_ne (σ : Store) (d : Dict) (a : Nat) (h : a ≠ σ.next) :
    ((σ.alloc d).1).read a = σ.read a := by
  unfold Store.alloc Store.read
  simp only []
  rw [List.find?_append]
  have hnone : List.find? (fun c => c.1 = a) [(σ.next, d)] = none := by
    have h' : ¬ (σ.next = a) := fun he => h he.symm
    simp [List.find?, h']
  rw [hnone, Option.or_none]

/-- The constructor leaves every previously allocated cell untouched:
the deep copies shield the caller's dictionaries from the in-place
`pop`. -/
lemma initStore_frame (σ : Store) (filepath : String)
    (fsArgsA credsA : Option Nat) (saveArgs : Option Dict)
    (layer : Option String) (version : Option Version) (a : Nat)
    (ha : a < σ.next) :
    ((initStore σ filepath fsArgsA credsA saveArgs layer version).1).read a =
      σ.read a := by
  have h1 : a ≠ σ.next + 1 := by omega
  have h2 : a ≠ σ.next := by omega
  unfold initStore
  simp only [Store.alloc]
  rw [Store.read_write_ne _ _ _ _ h1]
  show Store.read ⟨(σ.cells ++ [(σ.next, valAt σ credsA)]) ++
    [(σ.next + 1, valAt σ fsArgsA)], σ.next + 1 + 1⟩ a = _
  unfold Store.read
  simp only []
  rw [List.find?_append, List.find?_append]
  have hx : List.find? (fun c => c.1 = a) [(σ.next, valAt σ credsA)] =
      none := by
    have h' : ¬ (σ.next = a) := fun he => h2 he.symm
    simp [List.find?, h']
  have hy : List.find? (fun c => c.1 = a)
      [(σ.next + 1, valAt σ fsArgsA)] = none := by
    have h' : ¬ (σ.next + 1 = a) := fun he => h1 he.symm
    simp [List.find?, h']
  rw [hx, hy, Option.or_none, Option.or_none]

/-- The writer the constructor returns, as a pure function of the
argument values. -/
lemma initStore_writer (σ : Store) (hwf : Store.WF σ) (filepath : String)
    (fsArgsA credsA : Option Nat) (saveArgs : Option Dict)
    (layer : Option String) (version : Option Version) :
    (initStore σ filepath fsArgsA credsA saveArgs layer version).2 =
      { filepath := (getProtocolAndPath filepath).2,
        protocol := (getProtocolAndPath filepath).1,
        fsArgs := (Dict.pop (valAt σ fsArgsA) "open_args_save"
          (Val.vdict [])).2,
        fsOpenArgsSave := Dict.setdefault
          (match (Dict.pop (valAt σ fsArgsA) "open_args_save"
              (Val.vdict [])).1 with
            | Val.vdict d => d
            | _ => []) "mode" (Val.vstr "wb"),
        saveArgs := match saveArgs with
          | some d => Dict.update [] d
          | none => [],
        layer := layer,
        version := version,
        versionCache := none } := by
  have hcells : List.find? (fun c => c.1 = σ.next + 1) σ.cells = none := by
    rw [List.find?_eq_none]
    intro c hc
    have := hwf c hc
    simp only [decide_eq_true_eq]
    omega
  have hread2 : Store.read ⟨(σ.cells ++ [(σ.next, valAt σ credsA)]) ++
      [(σ.next + 1, valAt σ fsArgsA)], σ.next + 1 + 1⟩ (σ.next + 1) =
      valAt σ fsArgsA := by
    unfold Store.read
    simp only []
    rw [List.find?_append, List.find?_append, hcells]
    have hx : List.find? (fun c => c.1 = σ.next + 1)
        [(σ.next, valAt σ credsA)] = none := by
      simp [List.find?]
    rw [hx]
    simp [List.find?]
  have hread3 : ∀ X : Dict,
      Store.read (Store.write ⟨(σ.cells ++ [(σ.next, valAt σ credsA)]) ++
        [(σ.next + 1, valAt σ fsArgsA)], σ.next + 1 + 1⟩ (σ.next + 1) X)
        (σ.next + 1) = X := by
    intro X
    unfold Store.write Store.read
    simp only []
    rw [List.map_append, List.map_append, List.find?_append,
      List.find?_append]
    have ha : List.find? (fun c => c.1 = σ.next + 1)
        (List.map (fun c => if c.1 = σ.next + 1 then (σ.next + 1, X) else c)
          σ.cells) = none := by
      rw [List.find?_eq_none]
      intro x hx
      obtain ⟨c, hc, hxc⟩ := List.mem_map.mp hx
      have hlt := hwf c hc
      have hne : ¬ (c.1 = σ.next + 1) := by omega
      rw [if_neg hne] at hxc
      subst hxc
      simp only [decide_eq_true_eq]
      omega
    have hb : List.find? (fun c => c.1 = σ.next + 1)
        (List.map (fun c => if c.1 = σ.next + 1 then (σ.next + 1, X) else c)
          [(σ.next, valAt σ credsA)]) = none := by
      simp [List.find?]
    rw [ha, hb]
    simp [List.find?]
  unfold initStore
  simp only [Store.alloc]
  rw [hread2, hread3]

/-! ## Existence after a save -/

lemma mem_keys_setFile_self (f : List (String × List Nat)) (p : String)
    (b : List Nat) :
    p ∈ (FS.setFile f p b).map Prod.fst := by
  induction f with
  | nil => simp [FS.setFile]
  | cons kv rest ih =>
      obtain ⟨p0, b0⟩ := kv
      by_cases h : p0 = p
      · simp [FS.setFile, h]
      · show p ∈ (List.map Prod.fst
          (if p0 = p then (p, b) :: rest else (p0, b0) :: FS.setFile rest p b))
        rw [if_neg h]
        simpa using Or.inr ih

lemma mem_keys_setFile_of (f : List (String × List Nat)) (q p : String)
    (b : List Nat) (h : q ∈ f.map Prod.fst) :
    q ∈ (FS.setFile f p b).map Prod.fst := by
  induction f with
  | nil => simp at h
  | cons kv rest ih =>
      obtain ⟨p0, b0⟩ := kv
      simp only [List.map_cons, List.mem_cons] at h
      by_cases h0 : p0 = p
      · show q ∈ (List.map Prod.fst
          (if p0 = p then (p, b) :: rest else (p0, b0) :: FS.setFile rest p b))
        rw [if_pos h0]
        rcases h with h | h
        · exact h0 ▸ h ▸ (by simp)
        · simpa using Or.inr h
      · show q ∈ (List.map Prod.fst
          (if p0 = p then (p, b) :: rest else (p0, b0) :: FS.setFile rest p b))
        rw [if_neg h0]
        rcases h with h | h
        · simp [h]
        · simpa using Or.inr (ih h)

lemma mem_keys_applyWrites_of (ws : List (String × List Nat)) :
    ∀ (f : List (String × List Nat)) (q : String), q ∈ f.map Prod.fst →
      q ∈ (applyWrites f ws).map Prod.fst := by
  induction ws with
  | nil => intro f q h; exact h
  | cons kv rest ih =>
      intro f q h
      rw [applyWrites_cons]
      exact ih _ q (mem_keys_setFile_of f q kv.1 kv.2 h)

lemma mem_keys_applyWrites_written (ws : List (String × List Nat)) :
    ∀ (f : List (String × List Nat)) (q : String), q ∈ ws.map Prod.fst →
      q ∈ (applyWrites f ws).map Prod.fst := by
  induction ws with
  | nil => intro f q h; simp at h
  | cons kv rest ih =>
      intro f q h
      simp only [List.map_cons, List.mem_cons] at h
      rw [applyWrites_cons]
      rcases h with h | h
      · exact mem_keys_applyWrites_of rest _ q
          (h ▸ mem_keys_setFile_self f kv.1 kv.2)
      · exact ih _ q h

lemma prefix_joinSep (b x : String) :
    ((b ++ "/").data.isPrefixOf (joinSep b x).data) = true := by
  show ((b ++ "/").data.isPrefixOf ((b ++ "/" ++ x)).data) = true
  rw [List.isPrefixOf_iff_prefix]
  rw [show b ++ "/" ++ x = (b ++ "/") ++ x from rfl, String.data_append]
  exact List.prefix_append _ _

lemma exists'_of_key (fs : FS) (p q : String)
    (hq : q ∈ fs.files.map Prod.fst)
    (hpq : q = p ∨ ((p ++ "/").data.isPrefixOf q.data) = true) :
    fs.exists' p = true := by
  obtain ⟨kv, hkv, hfst⟩ := List.mem_map.mp hq
  unfold FS.exists'
  rw [List.any_eq_true]
  refine ⟨kv, hkv, ?_⟩
  show (kv.1 = p || (p ++ "/").data.isPrefixOf kv.1.data) = true
  rw [hfst]
  rcases hpq with hcase | hcase
  · rw [hcase]; simp
  · rw [hcase]; simp

lemma expectedPaths_rel {P : Type} (b : String) (data : Payload P)
    (q : String) (h : q ∈ expectedPaths b data) :
    q = b ∨ ((b ++ "/").data.isPrefixOf q.data) = true := by
  cases data with
  | single p => simp [expectedPaths] at h; exact Or.inl h
  | list ps =>
      simp only [expectedPaths, List.mem_map] at h
      obtain ⟨i, _, hq⟩ := h
      exact Or.inr (hq ▸ prefix_joinSep b _)
  | dict m =>
      simp only [expectedPaths, List.mem_map] at h
      obtain ⟨kv, _, hq⟩ := h
      exact Or.inr (hq ▸ prefix_joinSep b _)

lemma expectedPaths_ne_nil {P : Type} (b : String) (data : Payload P)
    (h : payloadNonempty data) : expectedPaths b data ≠ [] := by
  cases data with
  | single p => simp [expectedPaths]
  | list ps =>
      have hps : ps ≠ [] := h
      simpa [expectedPaths] using hps
  | dict m =>
      have hm : m ≠ [] := h
      simpa [expectedPaths] using hm

/-- After a successful nonempty save in plain mode, the filesystem
reports the declared path as present. -/
lemma save_exists_after {P : Type} (encF : P → Dict → List Nat)
    (gens : Nat → String) (w : Writer) (fs : FS) (n : Nat)
    (data : Payload P) (hv : w.version = none)
    (hne : payloadNonempty data)
    (h : (save (pureEnc encF) gens w fs n data).err = none) :
    existsFn w (save (pureEnc encF) gens w fs n data).fs = true := by
  obtain ⟨b, hbfp, _, _, _, _, _, _, _, _, _, hfiles, _, _, _, hfull, _, _,
    _⟩ := save_spec (pureEnc encF) gens w fs n data
  have hb : b = w.filepath := hbfp hv
  have hpaths := hfull h
  have hnenil := expectedPaths_ne_nil b data hne
  have hqmem : (expectedPaths b data).head hnenil ∈ expectedPaths b data :=
    List.head_mem hnenil
  have hqw : (expectedPaths b data).head hnenil ∈
      writePathsOf (save (pureEnc encF) gens w fs n data).evs := by
    rw [hpaths]; exact hqmem
  have hqkeys : (expectedPaths b data).head hnenil ∈
      ((save (pureEnc encF) gens w fs n data).fs.files).map Prod.fst := by
    rw [hfiles]
    exact mem_keys_applyWrites_written _ _ _ hqw
  show FS.exists' _ (getFilepathStr w.filepath w.protocol) = true
  exact exists'_of_key _ w.filepath _ hqkeys
    (hb ▸ expectedPaths_rel b data _ hqmem)

/-! ## The versioned existence guard, from an arbitrary writer -/

/-- In versioned mode, when the versioned path exists and `multiFile`
is not truthy, path resolution raises the must-not-exist error. -/
lemma gsp_err_of_exists (gens : Nat → String) (n : Nat) (fs : FS)
    (w : Writer) (v : Version) (hv : w.version = some v)
    (hmf : Val.truthyOpt (Dict.get w.saveArgs "multiFile") = false)
    (hex : fs.exists' (versionedPath w.filepath
      (resolveSaveVersion gens n w).ver) = true) :
    (getSavePath gens n fs w).res = .error (.datasetError (mustNotExistMsg
      (versionedPath w.filepath (resolveSaveVersion gens n w).ver))) := by
  unfold getSavePath
  rw [hv]
  simp only [rsv_filepath, rsv_saveArgs, hmf, hex]
  simp

/-- In versioned mode, the resolution trace always ends with the
existence query on the versioned path, whatever the guard decides. -/
lemma gsp_evs_versioned (gens : Nat → String) (n : Nat) (fs : FS)
    (w : Writer) (v : Version) (hv : w.version = some v) :
    (getSavePath gens n fs w).evs = (resolveSaveVersion gens n w).evs ++
      [Ev.existsQ (versionedPath w.filepath (resolveSaveVersion gens n w).ver)
        (fs.exists' (versionedPath w.filepath
          (resolveSaveVersion gens n w).ver))] := by
  unfold getSavePath
  rw [hv]
  simp only [rsv_filepath]
  split <;> rfl

/-- When the first path resolution of a nonempty save raises, the save
raises that same error, writes nothing and leaves the filesystem
untouched. -/
lemma save_err_of_gsp_err {P : Type} (enc : P → Dict → Except Err (List Nat))
    (gens : Nat → String) (w : Writer) (fs : FS) (n : Nat)
    (data : Payload P) (e : Err) (hne : payloadNonempty data)
    (herr : (getSavePath gens n fs w).res = .error e) :
    (save enc gens w fs n data).err = some e ∧
    writesOf (save enc gens w fs n data).evs = [] ∧
    (save enc gens w fs n data).fs = fs := by
  obtain ⟨e1, _, _, _, _⟩ := gsp_evs_counts gens n fs w
  cases data with
  | single p =>
      have hbranch : saveSingle enc gens w fs n p =
          ⟨fs, (getSavePath gens n fs w).w, (getSavePath gens n fs w).n,
            (getSavePath gens n fs w).evs, some e⟩ := by
        unfold saveSingle
        simp only [herr]
      show (savePost (saveSingle enc gens w fs n p)).err = some e ∧
        writesOf (savePost (saveSingle enc gens w fs n p)).evs = [] ∧
        (savePost (saveSingle enc gens w fs n p)).fs = fs
      rw [hbranch]
      exact ⟨rfl, e1, rfl⟩
  | list ps =>
      cases ps with
      | nil => exact absurd rfl hne
      | cons p rest =>
          have hbranch : saveList enc gens w fs n (p :: rest) 0 =
              ⟨fs, (getSavePath gens n fs w).w, (getSavePath gens n fs w).n,
                (getSavePath gens n fs w).evs, some e⟩ := by
            unfold saveList
            simp only [herr]
          show (savePost (saveList enc gens w fs n (p :: rest) 0)).err =
              some e ∧
            writesOf (savePost (saveList enc gens w fs n (p :: rest) 0)).evs
              = [] ∧
            (savePost (saveList enc gens w fs n (p :: rest) 0)).fs = fs
          rw [hbranch]
          exact ⟨rfl, e1, rfl⟩
  | dict m =>
      cases m with
      | nil => exact absurd rfl hne
      | cons kv rest =>
          obtain ⟨plotName, p⟩ := kv
          have hbranch : saveDict enc gens w fs n ((plotName, p) :: rest) =
              ⟨fs, (getSavePath gens n fs w).w, (getSavePath gens n fs w).n,
                (getSavePath gens n fs w).evs, some e⟩ := by
            unfold saveDict
            simp only [herr]
          show (savePost (saveDict enc gens w fs n
              ((plotName, p) :: rest))).err = some e ∧
            writesOf (savePost (saveDict enc gens w fs n
              ((plotName, p) :: rest))).evs = [] ∧
            (savePost (saveDict enc gens w fs n
              ((plotName, p) :: rest))).fs = fs
          rw [hbranch]
          exact ⟨rfl, e1, rfl⟩

/-- Every event of the first path resolution appears in the trace of a
nonempty save. -/
lemma save_mem_gsp_evs {P : Type} (enc : P → Dict → Except Err (List Nat))
    (gens : Nat → String) (w : Writer) (fs : FS) (n : Nat)
    (data : Payload P) (hne : payloadNonempty data) (x : Ev)
    (hx : x ∈ (getSavePath gens n fs w).evs) :
    x ∈ (save enc gens w fs n data).evs := by
  have hpost : ∀ r : SRes, x ∈ r.evs → x ∈ (savePost r).evs := by
    intro r hr
    unfold savePost
    cases hre : r.err with
    | some e => exact hr
    | none => simp only []; exact List.mem_append_left _ hr
  cases data with
  | single p =>
      refine hpost _ ?_
      unfold saveSingle
      cases hres : (getSavePath gens n fs w).res with
      | error e => simp only [hres]; exact hx
      | ok b =>
          simp only [hres]
          exact List.mem_append_left _ hx
  | list ps =>
      cases ps with
      | nil => exact absurd rfl hne
      | cons p rest =>
          refine hpost _ ?_
          unfold saveList
          cases hres : (getSavePath gens n fs w).res with
          | error e => simp only [hres]; exact hx
          | ok b =>
              simp only [hres]
              cases hwe : (saveToFs enc (getSavePath gens n fs w).w fs
                  (joinSep (getFilepathStr b
                    (getSavePath gens n fs w).w.protocol)
                    (toString 0 ++ ".png")) p).err with
              | some e =>
                  simp only [hwe]
                  exact List.mem_append_left _ hx
              | none =>
                  simp only [hwe]
                  exact List.mem_append_left _ (List.mem_append_left _ hx)
  | dict m =>
      cases m with
      | nil => exact absurd rfl hne
      | cons kv rest =>
          obtain ⟨plotName, p⟩ := kv
          refine hpost _ ?_
          unfold saveDict
          cases hres : (getSavePath gens n fs w).res with
          | error e => simp only [hres]; exact hx
          | ok b =>
              simp only [hres]
              cases hwe : (saveToFs enc (getSavePath gens n fs w).w fs
                  (joinSep (getFilepathStr b
                    (getSavePath gens n fs w).w.protocol) plotName) p).err with
              | some e =>
                  simp only [hwe]
                  exact List.mem_append_left _ hx
              | none =>
                  simp only [hwe]
                  exact List.mem_append_left _ (List.mem_append_left _ hx)

/-- In versioned mode, a nonempty save always issues the existence
query on the versioned path, whatever the guard decides. -/
lemma save_existsQ_mem {P : Type} (enc : P → Dict → Except Err (List Nat))
    (gens : Nat → String) (w : Writer) (fs : FS) (n : Nat)
    (data : Payload P) (v : Version) (hv : w.version = some v)
    (hne : payloadNonempty data) :
    Ev.existsQ (versionedPath w.filepath (resolveSaveVersion gens n w).ver)
      (fs.exists' (versionedPath w.filepath
        (resolveSaveVersion gens n w).ver)) ∈
      (save enc gens w fs n data).evs := by
  refine save_mem_gsp_evs enc gens w fs n data hne _ ?_
  rw [gsp_evs_versioned gens n fs w v hv]
  exact List.mem_append_right _ (by simp)

/-- With the guard disarmed, every path resolution succeeds. -/
lemma gsp_ok_of_noguard (gens : Nat → String) (n : Nat) (fs : FS)
    (w : Writer) (hng : NoGuard w) :
    ∃ x, (getSavePath gens n fs w).res = .ok x := by
  cases hv : w.version with
  | none => exact ⟨w.filepath, by rw [gsp_none gens n fs w hv]⟩
  | some v =>
      rcases hng with hng | hng
      · rw [hng] at hv; cases hv
      · refine ⟨versionedPath w.filepath (resolveSaveVersion gens n w).ver, ?_⟩
        unfold getSavePath
        rw [hv]
        simp only [rsv_filepath, rsv_saveArgs, hng]
        simp

lemma noguard_of_fields {w w' : Writer} (hng : NoGuard w)
    (hv : w'.version = w.version) (hs : w'.saveArgs = w.saveArgs) :
    NoGuard w' := by
  rcases hng with h | h
  · exact Or.inl (hv.trans h)
  · exact Or.inr (hs ▸ h)

lemma saveList_ok_noguard {P : Type} (encF : P → Dict → List Nat)
    (gens : Nat → String) {w : Writer} {b : String} (hb : BaseIs w b)
    (hng : NoGuard w) :
    ∀ (ps : List P) (idx : Nat) (fs : FS) (n : Nat),
      fs.failOpen = [] → fs.failWrite = [] →
      (saveList (pureEnc encF) gens w fs n ps idx).err = none := by
  intro ps
  induction ps with
  | nil => intro idx fs n _ _; rfl
  | cons p rest ih =>
      intro idx fs n hfo hfw
      have hg := gsp_of_base hb gens n fs
      have hok : getSavePath gens n fs w =
          ⟨.ok b, w, n, (getSavePath gens n fs w).evs⟩ := by
        rcases hb with ⟨hv, hbeq⟩ | hvers
        · rw [if_pos hv] at hg
          rw [hg]
        · have hv : ¬ w.version = none := by
            obtain ⟨⟨v, hv'⟩, _⟩ := hvers
            rw [hv']; simp
          rw [if_neg hv] at hg
          rcases hng with hng | hng
          · exact absurd hng hv
          · have hcond : (fs.exists' b &&
                !(Val.truthyOpt (Dict.get w.saveArgs "multiFile"))) = false := by
              rw [hng]; simp
            rw [hcond] at hg
            simp only [Bool.false_eq_true, if_false] at hg
            rw [hg]
      unfold saveList
      rw [hok]
      simp only [getFilepathStr]
      have hwe := saveToFs_ok_of_no_faults (pureEnc encF) w fs
        (joinSep b (toString idx ++ ".png")) p (encF p w.saveArgs) rfl hfo hfw
      obtain ⟨_, _, s3, s4, _, _, _, _, _, _, _⟩ :=
        saveToFs_spec (pureEnc encF) w fs
          (joinSep b (toString idx ++ ".png")) p
      cases hwe2 : (saveToFs (pureEnc encF) w fs
          (joinSep b (toString idx ++ ".png")) p).err with
      | some e => rw [hwe2] at hwe; cases hwe
      | none =>
          simp only [hwe2]
          exact ih (idx + 1) _ n (by rw [s3, hfo]) (by rw [s4, hfw])

lemma saveDict_ok_noguard {P : Type} (encF : P → Dict → List Nat)
    (gens : Nat → String) {w : Writer} {b : String} (hb : BaseIs w b)
    (hng : NoGuard w) :
    ∀ (m : List (String × P)) (fs : FS) (n : Nat),
      fs.failOpen = [] → fs.failWrite = [] →
      (saveDict (pureEnc encF) gens w fs n m).err = none := by
  intro m
  induction m with
  | nil => intro fs n _ _; rfl
  | cons kv rest ih =>
      intro fs n hfo hfw
      obtain ⟨plotName, p⟩ := kv
      have hg := gsp_of_base hb gens n fs
      have hok : getSavePath gens n fs w =
          ⟨.ok b, w, n, (getSavePath gens n fs w).evs⟩ := by
        rcases hb with ⟨hv, hbeq⟩ | hvers
        · rw [if_pos hv] at hg
          rw [hg]
        · have hv : ¬ w.version = none := by
            obtain ⟨⟨v, hv'⟩, _⟩ := hvers
            rw [hv']; simp
          rw [if_neg hv] at hg
          rcases hng with hng | hng
          · exact absurd hng hv
          · have hcond : (fs.exists' b &&
                !(Val.truthyOpt (Dict.get w.saveArgs "multiFile"))) = false := by
              rw [hng]; simp
            rw [hcond] at hg
            simp only [Bool.false_eq_true, if_false] at hg
            rw [hg]
      unfold saveDict
      rw [hok]
      simp only [getFilepathStr]
      have hwe := saveToFs_ok_of_no_faults (pureEnc encF) w fs
        (joinSep b plotName) p (encF p w.saveArgs) rfl hfo hfw
      obtain ⟨_, _, s3, s4, _, _, _, _, _, _, _⟩ :=
        saveToFs_spec (pureEnc encF) w fs (joinSep b plotName) p
      cases hwe2 : (saveToFs (pureEnc encF) w fs
          (joinSep b plotName) p).err with
      | some e => rw [hwe2] at hwe; cases hwe
      | none =>
          simp only [hwe2]
          exact ih _ n (by rw [s3, hfo]) (by rw [s4, hfw])

/-- With the guard disarmed (no versioning, or a truthy `multiFile`),
a total encoder and no injected backend faults, every save succeeds. -/
lemma save_ok_noguard {P : Type} (encF : P → Dict → List Nat)
    (gens : Nat → String) (w : Writer) (fs : FS) (n : Nat)
    (data : Payload P) (hng : NoGuard w)
    (hfo : fs.failOpen = []) (hfw : fs.failWrite = []) :
    (save (pureEnc encF) gens w fs n data).err = none := by
  obtain ⟨f1, f2, f3, f4⟩ := gsp_w_fields gens n fs w
  obtain ⟨b, hbase, hres⟩ := gsp_spec gens n fs w
  obtain ⟨x, hok⟩ := gsp_ok_of_noguard gens n fs w hng
  have hxb : x = b := by
    rcases hres with h | h
    · rw [hok] at h; exact Except.ok.inj h
    · rw [hok] at h; cases h
  rw [hxb] at hok
  have hng' : NoGuard (getSavePath gens n fs w).w :=
    noguard_of_fields hng f2 f3
  cases data with
  | single p =>
      rw [show save (pureEnc encF) gens w fs n (Payload.single p) =
        savePost (saveSingle (pureEnc encF) gens w fs n p) from rfl,
        savePost_err]
      unfold saveSingle
      simp only [hok, getFilepathStr]
      exact saveToFs_ok_of_no_faults (pureEnc encF) _ fs b p
        (encF p (getSavePath gens n fs w).w.saveArgs) rfl hfo hfw
  | list ps =>
      rw [show save (pureEnc encF) gens w fs n (Payload.list ps) =
        savePost (saveList (pureEnc encF) gens w fs n ps 0) from rfl,
        savePost_err]
      cases ps with
      | nil => rfl
      | cons p rest =>
          unfold saveList
          simp only [hok, getFilepathStr]
          have hwe := saveToFs_ok_of_no_faults (pureEnc encF)
            (getSavePath gens n fs w).w fs
            (joinSep b (toString 0 ++ ".png")) p
            (encF p (getSavePath gens n fs w).w.saveArgs) rfl hfo hfw
          obtain ⟨_, _, s3, s4, _, _, _, _, _, _, _⟩ :=
            saveToFs_spec (pureEnc encF) (getSavePath gens n fs w).w fs
              (joinSep b (toString 0 ++ ".png")) p
          cases hwe2 : (saveToFs (pureEnc encF) (getSavePath gens n fs w).w fs
              (joinSep b (toString 0 ++ ".png")) p).err with
          | some e => rw [hwe2] at hwe; cases hwe
          | none =>
              simp only [hwe2]
              exact saveList_ok_noguard encF gens hbase hng' rest 1 _ _
                (by rw [s3, hfo]) (by rw [s4, hfw])
  | dict m =>
      rw [show save (pureEnc encF) gens w fs n (Payload.dict m) =
        savePost (saveDict (pureEnc encF) gens w fs n m) from rfl,
        savePost_err]
      cases m with
      | nil => rfl
      | cons kv rest =>
          obtain ⟨plotName, p⟩ := kv
          unfold saveDict
          simp only [hok, getFilepathStr]
          have hwe := saveToFs_ok_of_no_faults (pureEnc encF)
            (getSavePath gens n fs w).w fs (joinSep b plotName) p
            (encF p (getSavePath gens n fs w).w.saveArgs) rfl hfo hfw
          obtain ⟨_, _, s3, s4, _, _, _, _, _, _, _⟩ :=
            saveToFs_spec (pureEnc encF) (getSavePath gens n fs w).w fs
              (joinSep b plotName) p
          cases hwe2 : (saveToFs (pureEnc encF) (getSavePath gens n fs w).w fs
              (joinSep b plotName) p).err with
          | some e => rw [hwe2] at hwe; cases hwe
          | none =>
              simp only [hwe2]
              exact saveDict_ok_noguard encF gens hbase hng' rest _ _
                (by rw [s3, hfo]) (by rw [s4, hfw])

/-! ## The claims -/

/-- Claim C4: `load()` always raises the unsupported-operation
`DataSetError` naming the writer type, for every writer instance and
every prior state, and never returns a value. -/
theorem C4_load_always_fails (w : Writer) :
    loadFn w = Except.error (Err.datasetError
      "Loading not supported for `MatplotlibVersionedWriter`") ∧
    ∀ x, loadFn w ≠ Except.ok x :=
  ⟨rfl, fun _ h => Except.noConfusion h⟩

/-- Witness for C4 at a concrete writer. -/
theorem C4_load_always_fails_witness :
    loadFn ⟨"bucket/chart.png", "s3", [], [], [], none, none, none⟩ =
      Except.error (Err.datasetError
        "Loading not supported for `MatplotlibVersionedWriter`") :=
  (C4_load_always_fails
    ⟨"bucket/chart.png", "s3", [], [], [], none, none, none⟩).1

/-- Claim C5: `exists()` returns exactly what the filesystem reports
for the unversioned declared path — the version descriptor plays no
role — so it is false while the filesystem lacks the path, and true
after a successful nonempty save to the same declared path. -/
theorem C5_exists_unversioned_path (w : Writer) (fs : FS) :
    existsFn w fs = fs.exists' w.filepath ∧
    (∀ ver, existsFn { w with version := ver } fs = existsFn w fs) ∧
    (fs.exists' w.filepath = false → existsFn w fs = false) ∧
    (∀ (P : Type) (encF : P → Dict → List Nat) (gens : Nat → String)
      (n : Nat) (data : Payload P), w.version = none →
      payloadNonempty data →
      (save (pureEnc encF) gens w fs n data).err = none →
      existsFn w (save (pureEnc encF) gens w fs n data).fs = true) := by
  refine ⟨rfl, fun ver => rfl, fun h => h, ?_⟩
  intro P encF gens n data hv hne herr
  exact save_exists_after encF gens w fs n data hv hne herr

/-- Witness for C5: on an empty filesystem `exists()` is false, and
after a successful single-plot save it is true. -/
theorem C5_exists_unversioned_path_witness :
    existsFn (⟨"bucket/chart.png", "s3", [], [], [], none, none, none⟩ :
      Writer) (⟨[], [], 0, [], []⟩ : FS) = false ∧
    existsFn (⟨"bucket/chart.png", "s3", [], [], [], none, none, none⟩ :
      Writer)
      (save (pureEnc fun (p : Nat) _ => [p]) (fun k => toString k)
        ⟨"bucket/chart.png", "s3", [], [], [], none, none, none⟩
        ⟨[], [], 0, [], []⟩ 0 (Payload.single 5)).fs = true := by
  have h := C5_exists_unversioned_path
    (⟨"bucket/chart.png", "s3", [], [], [], none, none, none⟩ : Writer)
    (⟨[], [], 0, [], []⟩ : FS)
  exact ⟨h.2.2.1 rfl,
    h.2.2.2 Nat (fun p _ => [p]) (fun k => toString k) 0 (Payload.single 5)
      rfl trivial rfl⟩

/-- Claim C6: without a version descriptor, path resolution returns
the declared path unchanged with no effect on the writer, and every
save writes at the declared path (or under it, per the
shape-determined layout). -/
theorem C6_plain_mode_path (gens : Nat → String) (n : Nat) (fs : FS)
    (w : Writer) (hv : w.version = none) :
    getSavePath gens n fs w = ⟨.ok w.filepath, w, n, []⟩ ∧
    ∀ (P : Type) (enc : P → Dict → Except Err (List Nat)) (data : Payload P),
      (∃ k, writePathsOf (save enc gens w fs n data).evs =
        (expectedPaths w.filepath data).take k) ∧
      ((save enc gens w fs n data).err = none →
        writePathsOf (save enc gens w fs n data).evs =
          expectedPaths w.filepath data) := by
  refine ⟨gsp_none gens n fs w hv, ?_⟩
  intro P enc data
  obtain ⟨b, hbfp, _, _, _, _, _, _, _, _, _, _, _, _, htake, hfull, _, _,
    _⟩ := save_spec enc gens w fs n data
  have hb := hbfp hv
  exact ⟨hb ▸ htake, hb ▸ hfull⟩

/-- Witness for C6 at a concrete plain-mode writer. -/
theorem C6_plain_mode_path_witness :
    getSavePath (fun k => toString k) 0 (⟨[], [], 0, [], []⟩ : FS)
      (⟨"bucket/chart.png", "s3", [], [], [], none, none, none⟩ : Writer) =
      ⟨.ok "bucket/chart.png",
        ⟨"bucket/chart.png", "s3", [], [], [], none, none, none⟩, 0, []⟩ :=
  (C6_plain_mode_path (fun k => toString k) 0 (⟨[], [], 0, [], []⟩ : FS)
    (⟨"bucket/chart.png", "s3", [], [], [], none, none, none⟩ : Writer)
    rfl).1

/-- Claim C7: a successful save invalidates exactly one filesystem
cache entry — the unversioned declared path — and a failed save
invalidates none; `release()` invalidates the same single entry and
clears the cached generated version. -/
theorem C7_cache_invalidation (w : Writer) (fs : FS) :
    (∀ (P : Type) (enc : P → Dict → Except Err (List Nat))
      (gens : Nat → String) (n : Nat) (data : Payload P),
      ((save enc gens w fs n data).err = none →
        invalsOf (save enc gens w fs n data).evs = [w.filepath] ∧
        (save enc gens w fs n data).fs.cached =
          fs.cached.filter (fun q => !(q = w.filepath))) ∧
      ((save enc gens w fs n data).err ≠ none →
        invalsOf (save enc gens w fs n data).evs = [])) ∧
    releaseFn w fs = ({ w with versionCache := none },
      fs.invalidateCache w.filepath, [Ev.invalCache w.filepath]) := by
  refine ⟨?_, rfl⟩
  intro P enc gens n data
  obtain ⟨b, _, _, _, _, _, _, _, _, _, _, _, _, _, _, _, h16, h17, _⟩ :=
    save_spec enc gens w fs n data
  exact ⟨h16, fun hne => (h17 hne).1⟩

/-- Witness for C7: a successful concrete save invalidates exactly the
declared path, leaving the other cache entry alone. -/
theorem C7_cache_invalidation_witness :
    invalsOf (save (pureEnc fun (p : Nat) _ => [p]) (fun k => toString k)
      ⟨"bucket/chart.png", "s3", [], [], [], none, none, none⟩
      ⟨[], ["bucket/chart.png", "other"], 0, [], []⟩ 0
      (Payload.single 5)).evs = ["bucket/chart.png"] ∧
    (save (pureEnc fun (p : Nat) _ => [p]) (fun k => toString k)
      ⟨"bucket/chart.png", "s3", [], [], [], none, none, none⟩
      ⟨[], ["bucket/chart.png", "other"], 0, [], []⟩ 0
      (Payload.single 5)).fs.cached = ["other"] := by
  have h := ((C7_cache_invalidation
    ⟨"bucket/chart.png", "s3", [], [], [], none, none, none⟩
    ⟨[], ["bucket/chart.png", "other"], 0, [], []⟩).1 Nat
    (pureEnc fun p _ => [p]) (fun k => toString k) 0
    (Payload.single 5)).1 rfl
  refine ⟨h.1, ?_⟩
  rw [h.2]
  rfl

/-- Claim C2: on a successful save under a total encoder, the traced
writes pair the shape-determined paths with each plot's direct
encoding under the merged encoder arguments: a single plot at the
resolved path itself, the `i`-th element of a sequence at
`<base>/<i>.png`, and each mapping entry at `<base>/<name>` with the
key verbatim and no extension added. -/
theorem C2_shape_layout_and_bytes (P : Type) (encF : P → Dict → List Nat)
    (gens : Nat → String) (w : Writer) (fs : FS) (n : Nat)
    (data : Payload P)
    (h : (save (pureEnc encF) gens w fs n data).err = none) :
    ∃ b, writesOf (save (pureEnc encF) gens w fs n data).evs =
        expectedWrites encF w.saveArgs b data ∧
      (payloadNonempty data → (getSavePath gens n fs w).res = .ok b) ∧
      (w.version = none → b = w.filepath) :=
  save_writes_pure encF gens w fs n data h

/-- Witness for C2: a concrete two-element sequence save writes the
two encodings at `0.png` and `1.png` under the declared path. -/
theorem C2_shape_layout_and_bytes_witness :
    (save (pureEnc fun (p : Nat) _ => [p, p]) (fun k => toString k)
      ⟨"bucket/charts", "s3", [], [], [], none, none, none⟩
      ⟨[], [], 0, [], []⟩ 0 (Payload.list [3, 4])).err = none ∧
    ∃ b, writesOf (save (pureEnc fun (p : Nat) _ => [p, p])
        (fun k => toString k)
        ⟨"bucket/charts", "s3", [], [], [], none, none, none⟩
        ⟨[], [], 0, [], []⟩ 0 (Payload.list [3, 4])).evs =
        expectedWrites (fun p _ => [p, p])
          (⟨"bucket/charts", "s3", [], [], [], none, none, none⟩ :
            Writer).saveArgs b (Payload.list [3, 4]) ∧
      (payloadNonempty (Payload.list [3, 4]) →
        (getSavePath (fun k => toString k) 0 (⟨[], [], 0, [], []⟩ : FS)
          ⟨"bucket/charts", "s3", [], [], [], none, none, none⟩).res =
          .ok b) ∧
      ((⟨"bucket/charts", "s3", [], [], [], none, none, none⟩ :
        Writer).version = none → b = "bucket/charts") :=
  ⟨rfl, C2_shape_layout_and_bytes Nat (fun p _ => [p, p])
    (fun k => toString k)
    ⟨"bucket/charts", "s3", [], [], [], none, none, none⟩
    ⟨[], [], 0, [], []⟩ 0 (Payload.list [3, 4]) rfl⟩

/-- Claim C3: one save call draws at most one fresh version from the
clock; every element written in the call targets one settled base
path; and once the version is resolved, repeated resolutions on the
same instance return the identical identifier, leaving the writer and
the clock untouched. -/
theorem C3_one_version_per_save (P : Type)
    (enc : P → Dict → Except Err (List Nat)) (gens : Nat → String)
    (w : Writer) (fs : FS) (n : Nat) (data : Payload P) :
    genCount (save enc gens w fs n data).evs ≤ 1 ∧
    (∃ b, (w.version = none → b = w.filepath) ∧
      (∃ k, writePathsOf (save enc gens w fs n data).evs =
        (expectedPaths b data).take k) ∧
      ((save enc gens w fs n data).err = none →
        writePathsOf (save enc gens w fs n data).evs =
          expectedPaths b data)) ∧
    (∀ gens' n', resolveSaveVersion gens' n'
        (resolveSaveVersion gens n w).w =
      ⟨(resolveSaveVersion gens n w).ver,
        (resolveSaveVersion gens n w).w, n', []⟩) := by
  obtain ⟨b, hbfp, _, _, _, _, _, _, _, _, _, _, _, h13, h14, h15, _, _,
    _⟩ := save_spec enc gens w fs n data
  exact ⟨h13, ⟨b, hbfp, h14, h15⟩,
    fun gens' n' => rsv_resolved gens n w gens' n'⟩

/-- Witness for C3: a concrete versioned two-element save draws at
most one fresh version. -/
theorem C3_one_version_per_save_witness :
    genCount (save (pureEnc fun (p : Nat) _ => [p]) (fun k => toString k)
      ⟨"bucket/chart.png", "s3", [], [],
        [("multiFile", Val.vbool true)], none, some ⟨none, none⟩, none⟩
      ⟨[], [], 0, [], []⟩ 0 (Payload.list [1, 2])).evs ≤ 1 :=
  (C3_one_version_per_save Nat (pureEnc fun p _ => [p])
    (fun k => toString k)
    ⟨"bucket/chart.png", "s3", [], [],
      [("multiFile", Val.vbool true)], none, some ⟨none, none⟩, none⟩
    ⟨[], [], 0, [], []⟩ 0 (Payload.list [1, 2])).1

/-- Claim C9: the write-handle count is restored on every exit path
and opens balance closes; the final file map is the initial one plus
exactly the traced writes, so elements written before a failure stay
written (no rollback); and in a sequence save whose first failing
element's encoder raises, that exception is surfaced while the writes
are exactly the earlier elements' encodings. -/
theorem C9_handle_safety_no_rollback (P : Type) :
    (∀ (enc : P → Dict → Except Err (List Nat)) (gens : Nat → String)
      (w : Writer) (fs : FS) (n : Nat) (data : Payload P),
      (save enc gens w fs n data).fs.openHandles = fs.openHandles ∧
      openCount (save enc gens w fs n data).evs =
        closeCount (save enc gens w fs n data).evs ∧
      (save enc gens w fs n data).fs.files =
        applyWrites fs.files (writesOf (save enc gens w fs n data).evs)) ∧
    (∀ (enc : P → Dict → Except Err (List Nat)) (gens : Nat → String)
      (w : Writer) (encF : P → List Nat) (bp : P) (cs : List P) (e : Err),
      w.version = none → enc bp w.saveArgs = .error e →
      ∀ as : List P, (∀ p ∈ as, enc p w.saveArgs = .ok (encF p)) →
      ∀ (fs : FS) (n : Nat), fs.failOpen = [] → fs.failWrite = [] →
      (save enc gens w fs n (Payload.list (as ++ bp :: cs))).err = some e ∧
      writesOf (save enc gens w fs n (Payload.list (as ++ bp :: cs))).evs =
        as.enum.map (fun ip =>
          (joinSep w.filepath (toString ip.1 ++ ".png"), encF ip.2))) := by
  constructor
  · intro enc gens w fs n data
    obtain ⟨b, _, _, _, _, _, _, _, h8, _, _, h11, h12, _, _, _, _, _, _⟩ :=
      save_spec enc gens w fs n data
    exact ⟨h8, h12, h11⟩
  · intro enc gens w encF bp cs e hv hbad as hok fs n hfo hfw
    have h := saveList_firstFail enc gens hv encF bp cs e hbad as hok 0 fs n
      hfo hfw
    constructor
    · rw [show save enc gens w fs n (Payload.list (as ++ bp :: cs)) =
        savePost (saveList enc gens w fs n (as ++ bp :: cs) 0) from rfl,
        savePost_err]
      exact h.1
    · rw [show save enc gens w fs n (Payload.list (as ++ bp :: cs)) =
        savePost (saveList enc gens w fs n (as ++ bp :: cs) 0) from rfl,
        savePost_writes, h.2]
      rfl

/-- Witness for C9: a concrete sequence save whose third element's
encoder raises surfaces that exception and keeps the first two
writes. -/
theorem C9_handle_safety_no_rollback_witness :
    (save (fun (p : Nat) _ => if p = 99 then
        Except.error (Err.datasetError "boom") else Except.ok [p])
      (fun k => toString k)
      ⟨"bucket/charts", "s3", [], [], [], none, none, none⟩
      ⟨[], [], 0, [], []⟩ 0 (Payload.list [1, 2, 99, 3])).err =
      some (Err.datasetError "boom") ∧
    writesOf (save (fun (p : Nat) _ => if p = 99 then
        Except.error (Err.datasetError "boom") else Except.ok [p])
      (fun k => toString k)
      ⟨"bucket/charts", "s3", [], [], [], none, none, none⟩
      ⟨[], [], 0, [], []⟩ 0 (Payload.list [1, 2, 99, 3])).evs =
      [("bucket/charts/0.png", [1]), ("bucket/charts/1.png", [2])] := by
  have h := (C9_handle_safety_no_rollback Nat).2
    (fun p _ => if p = 99 then Except.error (Err.datasetError "boom")
      else Except.ok [p])
    (fun k => toString k)
    ⟨"bucket/charts", "s3", [], [], [], none, none, none⟩
    (fun p => [p]) 99 [3] (Err.datasetError "boom") rfl rfl
    [1, 2] (by intro p hp; simp at hp; rcases hp with rfl | rfl <;> rfl)
    ⟨[], [], 0, [], []⟩ 0 rfl rfl
  exact ⟨h.1, h.2.trans (by rfl)⟩

/-- Counterexample to C1 as stated.  First conjunct pair: with a
truthy `multiFile` flag and the versioned path already on the
filesystem, the save raises no error — but the existence query on the
versioned path is still issued (the check is executed and its result
discarded, not "skipped entirely", since `self._exists_function` is
invoked before the `and` short-circuits on `multiFile`).  Last
conjunct: a versioned save of an empty sequence succeeds even though
the versioned path exists and `multiFile` is absent, against "the call
fails". -/
theorem C1_counterexample :
    ((save (pureEnc fun (p : Nat) _ => [p]) (fun k => toString k)
        ⟨"bucket/chart.png", "s3", [], [],
          [("multiFile", Val.vbool true)], none,
          some ⟨none, some "2020"⟩, none⟩
        ⟨[("bucket/2020/chart.png", [9])], [], 0, [], []⟩ 0
        (Payload.single 7)).err = none ∧
      Ev.existsQ "bucket/2020/chart.png" true ∈
        (save (pureEnc fun (p : Nat) _ => [p]) (fun k => toString k)
          ⟨"bucket/chart.png", "s3", [], [],
            [("multiFile", Val.vbool true)], none,
            some ⟨none, some "2020"⟩, none⟩
          ⟨[("bucket/2020/chart.png", [9])], [], 0, [], []⟩ 0
          (Payload.single 7)).evs) ∧
    (save (pureEnc fun (p : Nat) _ => [p]) (fun k => toString k)
        ⟨"bucket/chart.png", "s3", [], [], [], none,
          some ⟨none, some "2020"⟩, none⟩
        ⟨[("bucket/2020/chart.png", [9])], [], 0, [], []⟩ 0
        (Payload.list ([] : List Nat))).err = none := by
  refine ⟨⟨?_, ?_⟩, ?_⟩
  · rfl
  · decide
  · rfl

/-- Claim C1 (amended): for a versioned writer and a nonempty payload:
if `multiFile` is not truthy and the filesystem reports the resolved
versioned path as existing, the save fails with the must-not-exist
`DataSetError` before any bytes are written and the filesystem is
unchanged; if `multiFile` is truthy, no such error is raised — with a
total encoder and no backend faults the save succeeds — but the
existence query on the versioned path is still issued, its result
ignored. -/
theorem C1_versioned_guard (P : Type) (encF : P → Dict → List Nat)
    (gens : Nat → String) (w : Writer) (fs : FS) (n : Nat)
    (data : Payload P) (v : Version) (hv : w.version = some v)
    (hne : payloadNonempty data) :
    (Val.truthyOpt (Dict.get w.saveArgs "multiFile") = false →
      fs.exists' (versionedPath w.filepath
        (resolveSaveVersion gens n w).ver) = true →
      (save (pureEnc encF) gens w fs n data).err =
        some (.datasetError (mustNotExistMsg (versionedPath w.filepath
          (resolveSaveVersion gens n w).ver))) ∧
      writesOf (save (pureEnc encF) gens w fs n data).evs = [] ∧
      (save (pureEnc encF) gens w fs n data).fs = fs) ∧
    (Val.truthyOpt (Dict.get w.saveArgs "multiFile") = true →
      Ev.existsQ (versionedPath w.filepath (resolveSaveVersion gens n w).ver)
        (fs.exists' (versionedPath w.filepath
          (resolveSaveVersion gens n w).ver)) ∈
        (save (pureEnc encF) gens w fs n data).evs ∧
      (fs.failOpen = [] → fs.failWrite = [] →
        (save (pureEnc encF) gens w fs n data).err = none)) := by
  constructor
  · intro hmf hex
    exact save_err_of_gsp_err (pureEnc encF) gens w fs n data _ hne
      (gsp_err_of_exists gens n fs w v hv hmf hex)
  · intro hmf
    refine ⟨save_existsQ_mem (pureEnc encF) gens w fs n data v hv hne, ?_⟩
    intro hfo hfw
    exact save_ok_noguard encF gens w fs n data (Or.inr hmf) hfo hfw

/-- Witness for the amended C1: at a concrete versioned writer whose
versioned path exists, the save without `multiFile` raises the
must-not-exist error, and the save with `multiFile` succeeds. -/
theorem C1_versioned_guard_witness :
    (save (pureEnc fun (p : Nat) _ => [p]) (fun k => toString k)
      ⟨"bucket/chart.png", "s3", [], [], [], none,
        some ⟨none, some "2020"⟩, none⟩
      ⟨[("bucket/2020/chart.png", [9])], [], 0, [], []⟩ 0
      (Payload.single 7)).err = some (.datasetError
        (mustNotExistMsg "bucket/2020/chart.png")) ∧
    (save (pureEnc fun (p : Nat) _ => [p]) (fun k => toString k)
      ⟨"bucket/chart.png", "s3", [], [],
        [("multiFile", Val.vbool true)], none,
        some ⟨none, some "2020"⟩, none⟩
      ⟨[("bucket/2020/chart.png", [9])], [], 0, [], []⟩ 0
      (Payload.single 7)).err = none := by
  have hA := (C1_versioned_guard Nat (fun p _ => [p]) (fun k => toString k)
    ⟨"bucket/chart.png", "s3", [], [], [], none,
      some ⟨none, some "2020"⟩, none⟩
    ⟨[("bucket/2020/chart.png", [9])], [], 0, [], []⟩ 0
    (Payload.single 7) ⟨none, some "2020"⟩ rfl trivial).1 rfl rfl
  have hB := ((C1_versioned_guard Nat (fun p _ => [p]) (fun k => toString k)
    ⟨"bucket/chart.png", "s3", [], [],
      [("multiFile", Val.vbool true)], none,
      some ⟨none, some "2020"⟩, none⟩
    ⟨[("bucket/2020/chart.png", [9])], [], 0, [], []⟩ 0
    (Payload.single 7) ⟨none, some "2020"⟩ rfl trivial).2 rfl).2 rfl rfl
  exact ⟨hA.1, hB⟩

/-- Claim C8: construction extracts the nested open-arguments-for-save
mapping, defaults its write mode to `"wb"` when the caller did not
give one, keeps all caller-supplied open arguments unchanged
otherwise, and merges the caller's encoder arguments over the empty
defaults — yielding exactly the caller's encoder arguments. -/
theorem C8_ctor_argument_merging (filepath : String)
    (fsArgs creds saveArgs : Option Dict) (layer : Option String)
    (version : Option Version) (od sd : Dict)
    (hoas : Dict.get (fsArgs.getD []) "open_args_save" =
        some (Val.vdict od) ∨
      (Dict.get (fsArgs.getD []) "open_args_save" = none ∧ od = []))
    (hsd : saveArgs = some sd) (hnd : Dict.NodupKeys sd) :
    (Dict.get od "mode" = none →
      (initWriter filepath fsArgs creds saveArgs layer
        version).fsOpenArgsSave = od ++ [("mode", Val.vstr "wb")]) ∧
    (∀ m, Dict.get od "mode" = some m →
      (initWriter filepath fsArgs creds saveArgs layer
        version).fsOpenArgsSave = od) ∧
    (initWriter filepath fsArgs creds saveArgs layer version).saveArgs =
      sd := by
  subst hsd
  have hwf : Store.WF ⟨[(0, fsArgs.getD []), (1, creds.getD [])], 2⟩ := by
    intro c hc
    simp only [List.mem_cons, List.not_mem_nil, or_false] at hc
    rcases hc with rfl | rfl <;> simp
  have hstep : initWriter filepath fsArgs creds (some sd) layer version =
      (initStore ⟨[(0, fsArgs.getD []), (1, creds.getD [])], 2⟩ filepath
        (fsArgs.map fun _ => 0) (creds.map fun _ => 1) (some sd) layer
        version).2 := rfl
  have hval : valAt ⟨[(0, fsArgs.getD []), (1, creds.getD [])], 2⟩
      (fsArgs.map fun _ => 0) = fsArgs.getD [] := by
    cases fsArgs with
    | none => rfl
    | some d => rfl
  have hw := initStore_writer
    ⟨[(0, fsArgs.getD []), (1, creds.getD [])], 2⟩ hwf filepath
    (fsArgs.map fun _ => 0) (creds.map fun _ => 1) (some sd) layer version
  rw [hval] at hw
  have hoasd : (match (Dict.pop (fsArgs.getD []) "open_args_save"
      (Val.vdict [])).1 with
      | Val.vdict d => d
      | _ => []) = od := by
    rcases hoas with h1 | ⟨h1, h2⟩
    · show (match (match Dict.get (fsArgs.getD []) "open_args_save" with
          | some v => v
          | none => Val.vdict []) with
        | Val.vdict d => d
        | _ => []) = od
      rw [h1]
    · show (match (match Dict.get (fsArgs.getD []) "open_args_save" with
          | some v => v
          | none => Val.vdict []) with
        | Val.vdict d => d
        | _ => []) = od
      rw [h1, h2]
  refine ⟨?_, ?_, ?_⟩
  · intro hmode
    rw [hstep, hw]
    show Dict.setdefault (match (Dict.pop (fsArgs.getD []) "open_args_save"
        (Val.vdict [])).1 with
      | Val.vdict d => d
      | _ => []) "mode" (Val.vstr "wb") = _
    rw [hoasd]
    exact Dict.setdefault_of_none od "mode" (Val.vstr "wb") hmode
  · intro m hmode
    rw [hstep, hw]
    show Dict.setdefault (match (Dict.pop (fsArgs.getD []) "open_args_save"
        (Val.vdict [])).1 with
      | Val.vdict d => d
      | _ => []) "mode" (Val.vstr "wb") = _
    rw [hoasd]
    exact Dict.setdefault_of_some od "mode" (Val.vstr "wb") m hmode
  · rw [hstep, hw]
    show Dict.update [] sd = sd
    exact Dict.update_nil sd hnd

/-- Witness for C8: a concrete construction defaults the mode to
`"wb"`, keeps a caller-supplied mode, and keeps the caller's encoder
arguments exactly. -/
theorem C8_ctor_argument_merging_witness :
    (initWriter "s3://bucket/chart.png"
      (some [("open_args_save", Val.vdict [("compression", Val.vstr "gzip")])])
      none (some [("k1", Val.vstr "v1"), ("index", Val.vstr "value")])
      none none).fsOpenArgsSave =
      [("compression", Val.vstr "gzip"), ("mode", Val.vstr "wb")] ∧
    (initWriter "s3://bucket/chart.png"
      (some [("open_args_save", Val.vdict [("compression", Val.vstr "gzip")])])
      none (some [("k1", Val.vstr "v1"), ("index", Val.vstr "value")])
      none none).saveArgs =
      [("k1", Val.vstr "v1"), ("index", Val.vstr "value")] := by
  have h := C8_ctor_argument_merging "s3://bucket/chart.png"
    (some [("open_args_save", Val.vdict [("compression", Val.vstr "gzip")])])
    none (some [("k1", Val.vstr "v1"), ("index", Val.vstr "value")])
    none none [("compression", Val.vstr "gzip")]
    [("k1", Val.vstr "v1"), ("index", Val.vstr "value")]
    (Or.inl rfl) rfl (by decide)
  exact ⟨h.1 rfl, h.2.2⟩

/-- Claim C10: construction is a function of the argument values
alone — equal credential/filesystem-argument values yield identical
writers; the caller's dictionaries are untouched because the deep
copies shield them from the in-place pop; and `open_args_save` is
removed from the filesystem arguments before filesystem construction,
so the keyword arguments handed to the filesystem constructor never
contain it. -/
theorem C10_construction_value_semantics (σ σ' : Store)
    (hwf : Store.WF σ) (hwf' : Store.WF σ') (filepath : String)
    (fsA credsA fsA' credsA' : Option Nat) (saveArgs : Option Dict)
    (layer : Option String) (version : Option Version)
    (hfs : valAt σ fsA = valAt σ' fsA') :
    ((initStore σ filepath fsA credsA saveArgs layer version).2 =
      (initStore σ' filepath fsA' credsA' saveArgs layer version).2) ∧
    (∀ a, a < σ.next →
      ((initStore σ filepath fsA credsA saveArgs layer version).1).read a =
        σ.read a) ∧
    Dict.get (initStore σ filepath fsA credsA saveArgs layer
      version).2.fsArgs "open_args_save" = none ∧
    (∀ creds : Dict, Dict.get creds "open_args_save" = none →
      Dict.get ((initStore σ filepath fsA credsA saveArgs layer
        version).2.fsCtorKwargs creds) "open_args_save" = none) := by
  have hfsargs : Dict.get (initStore σ filepath fsA credsA saveArgs layer
      version).2.fsArgs "open_args_save" = none := by
    rw [initStore_writer σ hwf filepath fsA credsA saveArgs layer version]
    show Dict.get ((valAt σ fsA).filter
      (fun kv => !(kv.1 = "open_args_save"))) "open_args_save" = none
    exact Dict.get_filter_ne _ _
  refine ⟨?_,
    fun a ha => initStore_frame σ filepath fsA credsA saveArgs layer
      version a ha, hfsargs, ?_⟩
  · rw [initStore_writer σ hwf filepath fsA credsA saveArgs layer version,
      initStore_writer σ' hwf' filepath fsA' credsA' saveArgs layer version,
      hfs]
  · intro creds hc
    unfold Writer.fsCtorKwargs
    exact Dict.get_update_none _ _ _ hc hfsargs

/-- Witness for C10: a concrete construction leaves the caller's cell
unchanged and strips `open_args_save` from the filesystem
arguments. -/
theorem C10_construction_value_semantics_witness :
    ((initStore ⟨[(0, [("open_args_save", Val.vdict []),
        ("anon", Val.vbool false)]), (1, [])], 2⟩ "s3://bucket/chart.png"
      (some 0) (some 1) none none none).1).read 0 =
      [("open_args_save", Val.vdict []), ("anon", Val.vbool false)] ∧
    Dict.get ((initStore ⟨[(0, [("open_args_save", Val.vdict []),
        ("anon", Val.vbool false)]), (1, [])], 2⟩ "s3://bucket/chart.png"
      (some 0) (some 1) none none none).2).fsArgs "open_args_save" =
      none := by
  have h := C10_construction_value_semantics
    ⟨[(0, [("open_args_save", Val.vdict []), ("anon", Val.vbool false)]),
      (1, [])], 2⟩
    ⟨[(0, [("open_args_save", Val.vdict []), ("anon", Val.vbool false)]),
      (1, [])], 2⟩
    (by intro c hc; simp only [List.mem_cons, List.not_mem_nil, or_false]
        at hc; rcases hc with rfl | rfl <;> simp)
    (by intro c hc; simp only [List.mem_cons, List.not_mem_nil, or_false]
        at hc; rcases hc with rfl | rfl <;> simp)
    "s3://bucket/chart.png" (some 0) (some 1) (some 0) (some 1) none none
    none rfl
  exact ⟨(h.2.1 0 (by decide)).trans rfl, h.2.2.1⟩

end MatplotlibVersionedWriter
